import Mathlib

/-!
Verification of the core algorithms of `okta-terraform-tools`
(admin-roles-resources-generator, group-and-group-rules-generator,
policy-password-generator) against their natural-language specification.

Strings are modelled as `List Char` (`Str`); Python string methods
(`str.replace`, `str.split`, `str.strip`, slicing, `in`, `endswith`) and
the small fixed regular expressions used by the scripts are translated
into explicit recursive functions over `Str`.  The embedding assumes
newline-free inputs (all inputs of interest are URLs and labels), so the
Python `$` anchor coincides with end-of-list.  ASCII case folding is
modelled by `Char.toLower`, matching Python `str.lower` on ASCII data.
-/

/-- Python strings, modelled as lists of characters. -/
abbrev Str := List Char

/-- Coerce a Lean string literal to the `Str` model. -/
def strOf (s : String) : Str := s.data

/-- Python `sub in s` (substring containment). -/
def containsSub (sub : Str) : Str → Bool
  | [] => sub.isEmpty
  | c :: t => sub.isPrefixOf (c :: t) || containsSub sub t

/-- Worker for `replaceSub`; the fuel argument only makes the recursion
structural and is always at least the length of the remaining input, so
the `0, s => s` arm is never reached from `replaceSub`. -/
def replaceSubAux (pat rep : Str) : Nat → Str → Str
  | _, [] => []
  | 0, s => s
  | fuel + 1, c :: t =>
    if pat ≠ [] ∧ pat.isPrefixOf (c :: t) then
      rep ++ replaceSubAux pat rep fuel (t.drop (pat.length - 1))
    else
      c :: replaceSubAux pat rep fuel t

/-- Python `s.replace(pat, rep)`: replace every (leftmost, non-overlapping)
occurrence of `pat` in `s` by `rep`.  The scripts only call it with a
non-empty `pat`. -/
def replaceSub (pat rep s : Str) : Str := replaceSubAux pat rep s.length s

/-- `member.replace('"', '\\"')` — escape embedded double quotes. -/
def escapeQuotes (s : Str) : Str := replaceSub ['"'] ['\\', '"'] s

/-- `re.sub(r'_+', '_', s)`: collapse each maximal run of underscores to a
single underscore. -/
def collapseUnderscores : Str → Str
  | [] => []
  | c :: t =>
    match collapseUnderscores t with
    | [] => [c]
    | d :: t' => if c = '_' ∧ d = '_' then d :: t' else c :: d :: t'

/-- Python `s.strip('_')`: remove leading and trailing underscores. -/
def stripUnderscores (s : Str) : Str :=
  (((s.dropWhile (· = '_')).reverse.dropWhile (· = '_'))).reverse

/-- `normalize_name` from policy-password-generator/main.py (lines 9-20):
lowercase, replace every character outside `[a-z0-9]` by `_`, collapse
runs of `_`, strip leading/trailing `_`. -/
def normalize_name (name : Str) : Str :=
  let lowered := name.map Char.toLower
  let replaced := lowered.map fun c =>
    if (('a' ≤ c) && (c ≤ 'z')) || (('0' ≤ c) && (c ≤ '9')) then c else '_'
  stripUnderscores (collapseUnderscores replaced)

/-- `normalize_resource_name` from admin-roles-resources-generator/main.py
(lines 50-56): lowercase, turn spaces into underscores, delete every other
character outside `[a-z0-9_]`, and prepend `_` when the result starts with
a digit. -/
def normalize_resource_name (label : Str) : Str :=
  let lowered := label.map Char.toLower
  let underscored := lowered.map fun c => if c = ' ' then '_' else c
  let normalized := underscored.filter fun c =>
    (('a' ≤ c) && (c ≤ 'z')) || (('0' ≤ c) && (c ≤ '9')) || (c = '_')
  match normalized.head? with
  | some c => if c.isDigit then '_' :: normalized else normalized
  | none => normalized

/-- `true` iff the first character exists and is an ASCII digit. -/
def headIsDigit (s : Str) : Bool :=
  match s.head? with
  | some c => c.isDigit
  | none => false

/-- `re.search(r'<marker>([^/]+)(/.*)?$', member)`: scan for the leftmost
position where the literal `marker` is followed by a non-empty slash-free
id; return that id and the (possibly empty, slash-initial) trailing
segment running to the end of the string. -/
def matchIdExtra (marker : Str) : Str → Option (Str × Str)
  | [] => none
  | c :: t =>
    if marker.isPrefixOf (c :: t) then
      let r := (c :: t).drop marker.length
      let gid := r.takeWhile (· ≠ '/')
      if gid ≠ [] then some (gid, r.dropWhile (· ≠ '/'))
      else matchIdExtra marker t
    else matchIdExtra marker t

/-- `re.search(r'<marker>([^/]+)$', member)`: scan for the leftmost
position where the literal `marker` is followed by a non-empty slash-free
id that extends to the very end of the string. -/
def matchIdEnd (marker : Str) : Str → Option Str
  | [] => none
  | c :: t =>
    if marker.isPrefixOf (c :: t) then
      let r := (c :: t).drop marker.length
      if r ≠ [] ∧ r.all (· ≠ '/') then some r
      else matchIdEnd marker t
    else matchIdEnd marker t

/-- `true` iff every slash in `s` is immediately followed, inside `s`
itself, by a character other than `a`: such a string can never overlap an
occurrence of a marker of the form `/a...` that begins at or after it. -/
def goodBase : Str → Bool
  | [] => true
  | ['/'] => false
  | '/' :: c :: t => if c = 'a' then false else goodBase (c :: t)
  | _ :: t => goodBase t

/-- The Terraform interpolation `$\x7blocal.org_url\x7d`. -/
def orgUrlRef : Str := strOf "$\x7blocal.org_url\x7d"

/-- Output of the group branch of `substitute_member`. -/
def groupRefOut (nm extra : Str) : Str :=
  orgUrlRef ++ strOf "/api/v1/groups/$\x7bdata.okta_group." ++ nm ++ strOf ".id\x7d" ++ extra

/-- Output of the user branch of `substitute_member`. -/
def userRefOut (nm : Str) : Str :=
  orgUrlRef ++ strOf "/api/v1/users/$\x7bdata.okta_user." ++ nm ++ strOf ".id\x7d"

/-- Output of the app branch of `substitute_member`. -/
def appRefOut (nm extra : Str) : Str :=
  orgUrlRef ++ strOf "/api/v1/apps/$\x7bdata.okta_app." ++ nm ++ strOf ".id\x7d" ++ extra

/-- The group-pattern branch of `substitute_member` (lines 80-87 of the
source): a matched, known group id yields the symbolic reference; a match
with an unknown id, or no match, falls through (`none`). -/
def groupSub (group_map : List (Str × Str)) (member : Str) : Option Str :=
  match matchIdExtra (strOf "/api/v1/groups/") member with
  | some (gid, extra) => (group_map.lookup gid).map fun nm => groupRefOut nm extra
  | none => none

/-- The user-pattern branch of `substitute_member` (lines 88-95 of the
source); the user pattern admits no trailing segment. -/
def userSub (user_map : List (Str × Str)) (member : Str) : Option Str :=
  match matchIdEnd (strOf "/api/v1/users/") member with
  | some uid => (user_map.lookup uid).map fun nm => userRefOut nm
  | none => none

/-- The app-pattern branch of `substitute_member` (lines 96-104 of the
source); `app_map` must be present and non-empty (Python `if app_map and
aid in app_map`, where `None` and the empty dict are both falsy). -/
def appSub (app_map : Option (List (Str × Str))) (member : Str) : Option Str :=
  match matchIdExtra (strOf "/api/v1/apps/") member with
  | some (aid, extra) =>
    match app_map with
    | some am => if am ≠ [] then (am.lookup aid).map fun nm => appRefOut nm extra else none
    | none => none
  | none => none

/-- `substitute_member` from admin-roles-resources-generator/main.py
(lines 58-106).  `app_map = none` models the Python default `app_map=None`;
the `orElse` chain models the fall-through of the `return`-less pattern
branches, and the final `getD` is the escaped-literal fallback of line
106. -/
def substitute_member (member : Str) (group_map user_map : List (Str × Str))
    (app_map : Option (List (Str × Str))) (okta_domain : Str) : Str :=
  if containsSub (strOf "apps?filter") member then
    escapeQuotes (replaceSub (strOf "https://" ++ okta_domain) orgUrlRef member)
  else if (strOf "/api/v1/groups").isSuffixOf member then orgUrlRef ++ strOf "/api/v1/groups"
  else if (strOf "/api/v1/users").isSuffixOf member then orgUrlRef ++ strOf "/api/v1/users"
  else if (strOf "/api/v1/apps").isSuffixOf member then orgUrlRef ++ strOf "/api/v1/apps"
  else
    (((groupSub group_map member).orElse fun _ => userSub user_map member).orElse
      fun _ => appSub app_map member).getD (escapeQuotes member)

/-- `true` iff the string neither starts nor ends with an underscore. -/
def noEdgeUnderscore (s : Str) : Bool :=
  decide (s.head? ≠ some '_') && decide (s.getLast? ≠ some '_')

/-- The response headers the scripts read: `x-rate-limit-reset` parsed as
an integer timestamp, and the pagination `Link` header. -/
structure Headers where
  reset : Option Int
  link : Option Str
deriving DecidableEq

/-- One HTTP response: status code, headers, decoded JSON body (`none`
models a falsy body — `None` or an empty object — which is all the
callers distinguish, via `if not data`). -/
structure ApiResponse (α : Type) where
  status : Nat
  headers : Headers
  json : Option α
deriving DecidableEq

/-- Observable outcome of `get_api_data`: the returned
`(data, response.headers)` pair, plus the URL of every GET issued, the
seconds slept before each retry decision, and the URLs for which a
warning-level message (`Retries exhausted ...` / `Error: ... when
querying ...`) was printed. -/
structure FetchResult (α : Type) where
  result : Option α
  headers : Headers
  requests : List Str
  sleeps : List Int
  warnings : List Str
deriving DecidableEq

/-- The sleep computation of the HTTP 429 branch (lines 30-40): with the
reset header, `int(reset) - time.time()`, replaced by 1 only when
negative; without it, a fixed 60 seconds.  Time is modelled as `Int`. -/
def rateLimitSleep (h : Headers) (nowT : Int) : Int :=
  match h.reset with
  | some reset => if reset - nowT < 0 then 1 else reset - nowT
  | none => 60

/-- `get_api_data` from admin-roles-resources-generator/main.py (lines
24-48).  `resp i` is the response to the `i`-th GET of this call chain
and `now i` the clock when handling it; `k` is the index of the current
attempt and `retry_count` the remaining budget (Python default 3).  On
200 the decoded body and headers are returned; on 429 the computed sleep
is recorded and, budget permitting, the same URL is retried; any other
status warns and returns `(none, headers)`. -/
def get_api_data (resp : Nat → ApiResponse α) (now : Nat → Int) (url : Str) :
    Nat → Nat → FetchResult α
  | 0, k =>
    if (resp k).status = 200 then
      ⟨(resp k).json, (resp k).headers, [url], [], []⟩
    else if (resp k).status = 429 then
      ⟨none, (resp k).headers, [url], [rateLimitSleep (resp k).headers (now k)], [url]⟩
    else
      ⟨none, (resp k).headers, [url], [], [url]⟩
  | n + 1, k =>
    if (resp k).status = 200 then
      ⟨(resp k).json, (resp k).headers, [url], [], []⟩
    else if (resp k).status = 429 then
      ⟨(get_api_data resp now url n (k + 1)).result,
       (get_api_data resp now url n (k + 1)).headers,
       url :: (get_api_data resp now url n (k + 1)).requests,
       rateLimitSleep (resp k).headers (now k) :: (get_api_data resp now url n (k + 1)).sleeps,
       (get_api_data resp now url n (k + 1)).warnings⟩
    else
      ⟨none, (resp k).headers, [url], [], [url]⟩

/-- One API object; `tag` stands for the opaque payload, `type` models
the optional `"type"` field read by `g.get("type")`. -/
structure Item where
  tag : Nat
  type : Option Str
deriving DecidableEq

/-- The JSON body shape consumed by `fetch_roles`: the `"roles"` list
(`data.get("roles", [])`) and the `_links.next.href` cursor
(`data.get("_links", {}).get("next", {}).get("href")`). -/
structure RolesBody where
  roles : List Item
  next : Option Str
deriving DecidableEq

/-- A response to the loops that read `requests.get` directly: status
code, the `Link`/`link` header if present, and the decoded JSON array. -/
structure ListResponse where
  status : Nat
  link : Option Str
  items : List Item
deriving DecidableEq

/-- Python `\s` on the whitespace the scripts can meet in a Link header. -/
def pyIsSpace (c : Char) : Bool :=
  (c == ' ') || (c == '\t') || (c == '\n') || (c == '\r')

/-- First match of `re.findall(r'<([^>]+)>;\s*rel="next"', h)` (lines
180-182, 201-203, 235-237 of admin-roles main.py): scan left to right
for `<`, take the maximal `>`-free non-empty run, and require `>;`, then
whitespace, then `rel="next"`. -/
def findNextLinkA : Str → Option Str
  | [] => none
  | c :: t =>
    if c = '<' then
      if t.takeWhile (· ≠ '>') ≠ [] ∧ (t.dropWhile (· ≠ '>')).head? = some '>' ∧
          ((t.dropWhile (· ≠ '>')).drop 1).head? = some ';' ∧
          (strOf "rel=\"next\"").isPrefixOf
            (((t.dropWhile (· ≠ '>')).drop 2).dropWhile pyIsSpace) then
        some (t.takeWhile (· ≠ '>'))
      else findNextLinkA t
    else findNextLinkA t

/-- Python `s.find(ch)`: index of the first occurrence or `-1`. -/
def pyFindChar (s : Str) (ch : Char) : Int :=
  match s.findIdx? (· = ch) with
  | some i => (i : Int)
  | none => -1

/-- Python slicing `s[i:j]` with negative-index normalisation. -/
def pySlice (s : Str) (i j : Int) : Str :=
  let n : Int := s.length
  let i' := if i < 0 then max 0 (n + i) else min i n
  let j' := if j < 0 then max 0 (n + j) else min j n
  (s.take j'.toNat).drop i'.toNat

/-- `link[link.find("<") + 1 : link.find(">")]` from the
group-and-group-rules generator. -/
def extractAngle (link : Str) : Str :=
  pySlice link (pyFindChar link '<' + 1) (pyFindChar link '>')

/-- Worker for `splitOnSep`; the fuel argument only makes the recursion
structural and is always at least the length of the remaining input. -/
def splitOnSepAux (sep : Str) : Nat → Str → List Str
  | _, [] => [[]]
  | 0, s => [s]
  | fuel + 1, c :: t =>
    if sep ≠ [] ∧ sep.isPrefixOf (c :: t) then
      [] :: splitOnSepAux sep fuel (t.drop (sep.length - 1))
    else
      match splitOnSepAux sep fuel t with
      | [] => [[c]]
      | h :: r => (c :: h) :: r

/-- Python `s.split(sep)` for non-empty `sep`. -/
def splitOnSep (sep s : Str) : List Str := splitOnSepAux sep s.length s

/-- The Link-header parsing of `fetch_okta_groups` /
`fetch_okta_group_rules` (group-and-group-rules main.py, lines 54-60 and
126-132): split on `", "`, and for each part containing `rel="next"`
(the last such part wins) take the text between the first `<` and the
first `>`. -/
def parseLinkB (header : Str) : Option Str :=
  (splitOnSep (strOf ", ") header).foldl
    (fun url link =>
      if containsSub (strOf "rel=\"next\"") link then some (extractAngle link) else url)
    none

/-- The `while endpoint:` loop of `fetch_roles` (admin-roles main.py,
lines 110-121).  Each page is fetched through `get_api_data` (budget 3);
`server` assigns every URL its fixed response, so retries re-read the
same response.  A falsy or failed fetch breaks with the accumulated
roles; otherwise the body's `_links.next.href` (if any) is followed.
`fuel` bounds the unrolling of the while loop and is a modelling
artefact: any value at least the page count behaves identically. -/
def fetch_roles_go (server : Str → ApiResponse RolesBody) (now : Nat → Int) :
    Nat → Option Str → List Item → List Item
  | _, none, acc => acc
  | 0, some _, acc => acc
  | fuel + 1, some url, acc =>
    match (get_api_data (fun _ => server url) now url 3 0).result with
    | none => acc
    | some body => fetch_roles_go server now fuel body.next (acc ++ body.roles)

/-- `fetch_roles`: starts at `https://{okta_domain}/api/v1/iam/roles`. -/
def fetch_roles (server : Str → ApiResponse RolesBody) (now : Nat → Int) (okta_domain : Str)
    (fuel : Nat) : List Item :=
  fetch_roles_go server now fuel
    (some (strOf "https://" ++ okta_domain ++ strOf "/api/v1/iam/roles")) []

/-- The `while endpoint:` loop of `fetch_all_groups` (admin-roles
main.py, lines 168-187): on 200 extend with the page's array and follow
the first `rel="next"` target of the `Link` header; on any other status
break, returning the groups accumulated so far. -/
def fetch_all_groups_go (server : Str → ListResponse) :
    Nat → Option Str → List Item → List Item
  | _, none, acc => acc
  | 0, some _, acc => acc
  | fuel + 1, some url, acc =>
    if (server url).status = 200 then
      fetch_all_groups_go server fuel ((server url).link.bind findNextLinkA)
        (acc ++ (server url).items)
    else acc

/-- `fetch_all_groups`: starts at `https://{okta_domain}/api/v1/groups`. -/
def fetch_all_groups (server : Str → ListResponse) (okta_domain : Str) (fuel : Nat) :
    List Item :=
  fetch_all_groups_go server fuel
    (some (strOf "https://" ++ okta_domain ++ strOf "/api/v1/groups")) []

/-- `g.get("type") == "OKTA_GROUP"`. -/
def isOktaGroup (g : Item) : Bool := g.type == some (strOf "OKTA_GROUP")

/-- The loop of `fetch_okta_groups` (group-and-group-rules main.py,
lines 35-61): on a non-200 status the whole fetch returns `[]`,
discarding pages already read; on 200 only items whose `type` is
`OKTA_GROUP` are kept, and the `link` header is parsed for the next
URL.  Here `okta_domain` already carries the scheme (that script's
`get_okta_domain` returns `https://...`). -/
def fetch_okta_groups_go (server : Str → ListResponse) :
    Nat → Option Str → List Item → List Item
  | _, none, acc => acc
  | 0, some _, acc => acc
  | fuel + 1, some url, acc =>
    if (server url).status = 200 then
      fetch_okta_groups_go server fuel ((server url).link.bind parseLinkB)
        (acc ++ (server url).items.filter isOktaGroup)
    else []

/-- `fetch_okta_groups`: starts at `{okta_domain}/api/v1/groups`. -/
def fetch_okta_groups (server : Str → ListResponse) (okta_domain : Str) (fuel : Nat) :
    List Item :=
  fetch_okta_groups_go server fuel (some (okta_domain ++ strOf "/api/v1/groups")) []

/-- The loop of `fetch_okta_group_rules` (group-and-group-rules main.py,
lines 109-134): identical to `fetch_okta_groups_go` but without the type
filter — in particular a non-200 status also returns `[]`, discarding
accumulated rules. -/
def fetch_okta_group_rules_go (server : Str → ListResponse) :
    Nat → Option Str → List Item → List Item
  | _, none, acc => acc
  | 0, some _, acc => acc
  | fuel + 1, some url, acc =>
    if (server url).status = 200 then
      fetch_okta_group_rules_go server fuel ((server url).link.bind parseLinkB)
        (acc ++ (server url).items)
    else []

/-- `fetch_okta_group_rules`: starts at `{okta_domain}/api/v1/groups/rules`. -/
def fetch_okta_group_rules (server : Str → ListResponse) (okta_domain : Str) (fuel : Nat) :
    List Item :=
  fetch_okta_group_rules_go server fuel (some (okta_domain ++ strOf "/api/v1/groups/rules")) []

/-- Synthetic page URLs for chain servers: `p`, `pp`, `ppp`, ... -/
def urlOf (i : Nat) : Str := List.replicate (i + 1) 'p'

/-- Recover the page index from a synthetic URL (indices 1 and up; index
0 is addressed through the collection's start URL). -/
def decodeUrl (url : Str) : Option Nat :=
  if 1 ≤ url.length - 1 ∧ url = urlOf (url.length - 1) then some (url.length - 1) else none

/-- A well-formed `Link` header pointing at `u`. -/
def mkLinkHeader (u : Str) : Str := '<' :: u ++ strOf ">; rel=\"next\""

/-- Page `i` of a synthetic body-link (roles-style) server over `pages`,
failing with a 500 at index `failAt` (use `failAt = pages.length` for a
fully successful chain). -/
def rolesPage (pages : List (List Item)) (failAt i : Nat) : ApiResponse RolesBody :=
  if i < pages.length then
    if i = failAt then ⟨500, ⟨none, none⟩, none⟩
    else ⟨200, ⟨none, none⟩,
      some ⟨pages.getD i [], if i + 1 < pages.length then some (urlOf (i + 1)) else none⟩⟩
  else ⟨404, ⟨none, none⟩, none⟩

/-- Body-link chain server: the start URL serves page 0, `urlOf i`
serves page `i`, anything else is a 404. -/
def chainRolesServer (start : Str) (pages : List (List Item)) (failAt : Nat) :
    Str → ApiResponse RolesBody :=
  fun url =>
    if url = start then rolesPage pages failAt 0
    else
      match decodeUrl url with
      | some i => rolesPage pages failAt i
      | none => ⟨404, ⟨none, none⟩, none⟩

/-- Page `i` of a synthetic header-link server over `pages`. -/
def listPage (pages : List (List Item)) (failAt i : Nat) : ListResponse :=
  if i < pages.length then
    if i = failAt then ⟨500, none, []⟩
    else ⟨200, if i + 1 < pages.length then some (mkLinkHeader (urlOf (i + 1))) else none,
      pages.getD i []⟩
  else ⟨404, none, []⟩

/-- Header-link chain server, same addressing as `chainRolesServer`. -/
def chainListServer (start : Str) (pages : List (List Item)) (failAt : Nat) :
    Str → ListResponse :=
  fun url =>
    if url = start then listPage pages failAt 0
    else
      match decodeUrl url with
      | some i => listPage pages failAt i
      | none => ⟨404, none, []⟩

/-- The URL under which a chain server exposes page `i`. -/
def chainUrl (start : Str) (i : Nat) : Str := if i = 0 then start else urlOf i

example : normalize_name (strOf "  Admin Team!! ") = strOf "admin_team" := by decide

example : normalize_resource_name (strOf "  Admin Team!! ") = strOf "__admin_team_" := by decide

example : normalize_name (strOf "3M") = strOf "3m" := by decide

example : normalize_resource_name (strOf "3M") = strOf "_3m" := by decide

example : normalize_name (strOf "!!!") = strOf "" := by decide

example :
    substitute_member (strOf "https://org.example.com/api/v1/groups/abc123")
      [(strOf "abc123", strOf "admin_team")] [] none (strOf "org.example.com")
      = groupRefOut (strOf "admin_team") [] := by decide

example :
    substitute_member (strOf "https://org.example.com/api/v1/groups/abc123/users")
      [(strOf "abc123", strOf "admin_team")] [] none (strOf "org.example.com")
      = groupRefOut (strOf "admin_team") (strOf "/users") := by decide

example :
    substitute_member (strOf "https://org.example.com/api/v1/users/u1/factors")
      [] [(strOf "u1", strOf "alice")] none (strOf "org.example.com")
      = strOf "https://org.example.com/api/v1/users/u1/factors" := by decide

example :
    substitute_member (strOf "https://org.example.com/api/v1/groups/unknown999")
      [(strOf "abc123", strOf "admin_team")] [] none (strOf "org.example.com")
      = strOf "https://org.example.com/api/v1/groups/unknown999" := by decide

theorem head_dropWhile_not (p : Char → Bool) :
    ∀ (l : Str) (c : Char), (l.dropWhile p).head? = some c → p c = false := by
  intro l
  induction l with
  | nil => intro c h; simp [List.dropWhile] at h
  | cons a t ih =>
    intro c h
    rw [List.dropWhile_cons] at h
    by_cases ha : p a
    · rw [if_pos ha] at h
      exact ih c h
    · rw [if_neg ha] at h
      simp only [List.head?_cons, Option.some.injEq] at h
      subst h
      simpa using ha

theorem stripUnderscores_noEdge (s : Str) : noEdgeUnderscore (stripUnderscores s) = true := by
  unfold noEdgeUnderscore stripUnderscores
  set p : Char → Bool := fun c => decide (c = '_') with hp
  set y := s.dropWhile p with hy
  set w := y.reverse.dropWhile p with hw
  have hlast : w.reverse.getLast? ≠ some '_' := by
    rw [List.getLast?_reverse]
    intro hc
    have := head_dropWhile_not p y.reverse '_' (by rw [← hw]; exact hc)
    simp [hp] at this
  have hhead : w.reverse.head? ≠ some '_' := by
    intro hc
    have hsuffix : w <:+ y.reverse := by rw [hw]; exact List.dropWhile_suffix _
    obtain ⟨t, ht⟩ := hsuffix
    have hyeq : y = w.reverse ++ t.reverse := by
      have := congrArg List.reverse ht
      simpa [List.reverse_append] using this.symm
    have herhead : y.head? = w.reverse.head? := by
      rw [hyeq, List.head?_append]
      rcases hr : w.reverse.head? with _ | c
      · rw [hr] at hc; cases hc
      · simp [hr]
    have hyh : y.head? = some '_' := herhead.trans hc
    have := head_dropWhile_not p s '_' (by rw [← hy]; exact hyh)
    simp [hp] at this
  simp only [Bool.and_eq_true, decide_eq_true_eq]
  exact ⟨hhead, hlast⟩

theorem headIsDigit_fix (n : Str) :
    headIsDigit (match n.head? with
      | some c => if c.isDigit then '_' :: n else n
      | none => n) = false := by
  rcases hh : n.head? with _ | c
  · show headIsDigit n = false
    unfold headIsDigit
    rw [hh]
  · show headIsDigit (if c.isDigit then '_' :: n else n) = false
    by_cases hd : c.isDigit
    · rw [if_pos hd]
      unfold headIsDigit
      simp
    · rw [if_neg hd]
      unfold headIsDigit
      rw [hh]
      simpa using hd

theorem normalize_resource_name_head_not_digit (label : Str) :
    headIsDigit (normalize_resource_name label) = false :=
  headIsDigit_fix _

/-- Claim C4, counterexample.  The claim's normalization rule fails on the
code: `normalize_resource_name "  Admin Team!! "` is `"__admin_team_"`,
not the claimed `"admin_team"` (non-space punctuation is deleted rather
than turned into underscores, and the leading spaces become two kept
underscores), and `normalize_name "3M"` is `"3m"` with its leading digit
kept, where the claim requires an underscore to be prepended. -/
theorem C4_counterexample :
    normalize_resource_name (strOf "  Admin Team!! ") = strOf "__admin_team_" ∧
    strOf "__admin_team_" ≠ strOf "admin_team" ∧
    normalize_name (strOf "3M") = strOf "3m" ∧
    headIsDigit (normalize_name (strOf "3M")) = true := by decide

/-- Claim C4, amended.  The two normalizers differ and neither matches the
claim exactly.  `normalize_name` (policy-password-generator) lowercases,
replaces each character outside `[a-z0-9]` by `_`, collapses underscore
runs and strips edge underscores — so it maps `"  Admin Team!! "` to
`"admin_team"`, never starts or ends with `_`, but does not guard a
leading digit and returns `""` (no fallback) on punctuation-only input.
`normalize_resource_name` (admin-roles generator) lowercases, maps spaces
to `_`, deletes other characters outside `[a-z0-9_]` and prepends `_`
before a leading digit — so it maps `"  Admin Team!! "` to
`"__admin_team_"` and never starts with a digit; the id-based fallback
exists only at call sites, not inside either function. -/
theorem C4_amended_normalization :
    normalize_name (strOf "  Admin Team!! ") = strOf "admin_team" ∧
    normalize_resource_name (strOf "  Admin Team!! ") = strOf "__admin_team_" ∧
    normalize_name (strOf "3M") = strOf "3m" ∧
    normalize_resource_name (strOf "3M") = strOf "_3m" ∧
    normalize_name (strOf "!!!") = strOf "" ∧
    normalize_resource_name (strOf "!!!") = strOf "" ∧
    (∀ label : Str, headIsDigit (normalize_resource_name label) = false) ∧
    (∀ name : Str, noEdgeUnderscore (normalize_name name) = true) := by
  refine ⟨by decide, by decide, by decide, by decide, by decide, by decide, ?_, ?_⟩
  · exact normalize_resource_name_head_not_digit
  · intro name
    unfold normalize_name
    exact stripUnderscores_noEdge _

/-- Claim C8: resolution is a deterministic, pure function of its inputs.
`substitute_member` is embedded as a total function with no state, so two
calls with identical member and name tables yield structurally identical
results. -/
theorem C8_substitute_member_deterministic (member : Str) (gm um : List (Str × Str))
    (am : Option (List (Str × Str))) (d : Str) :
    substitute_member member gm um am d = substitute_member member gm um am d := rfl

/-- Claim C7, counterexample.  A rawValue with a query string that is not
an `apps?filter` URL does not get its host substituted: the groups filter
URL below is returned by the literal fallback, still containing the
literal host and no org-url interpolation, contradicting the claim's
"for every rawValue containing a query string". -/
theorem C7_counterexample :
    substitute_member (strOf "https://org.example.com/api/v1/groups?filter=type eq \"OKTA_GROUP\"")
      [] [] none (strOf "org.example.com")
      = escapeQuotes (strOf "https://org.example.com/api/v1/groups?filter=type eq \"OKTA_GROUP\"") ∧
    containsSub (strOf "https://org.example.com")
      (substitute_member (strOf "https://org.example.com/api/v1/groups?filter=type eq \"OKTA_GROUP\"")
        [] [] none (strOf "org.example.com")) = true ∧
    containsSub orgUrlRef
      (substitute_member (strOf "https://org.example.com/api/v1/groups?filter=type eq \"OKTA_GROUP\"")
        [] [] none (strOf "org.example.com")) = false := by decide

/-- Claim C7, amended: only rawValues containing the substring
`apps?filter` take the query branch; there, every occurrence of
`https://{okta_domain}` — anywhere in the string, including inside the
query — is replaced by the org-url interpolation and double quotes are
escaped.  Query-bearing URLs of any other shape fall through to the other
branches (typically the escaped-literal fallback, see the
counterexample). -/
theorem C7_amended_filter_branch (member : Str) (gm um : List (Str × Str))
    (am : Option (List (Str × Str))) (d : Str)
    (h : containsSub (strOf "apps?filter") member = true) :
    substitute_member member gm um am d
      = escapeQuotes (replaceSub (strOf "https://" ++ d) orgUrlRef member) := by
  unfold substitute_member
  rw [h, if_pos rfl]

/-- Witness for C7: a concrete `apps?filter` URL takes the query branch. -/
theorem C7_witness :
    substitute_member (strOf "https://d.io/api/v1/apps?filter=x") [] [] none (strOf "d.io")
      = escapeQuotes (replaceSub (strOf "https://" ++ strOf "d.io") orgUrlRef
          (strOf "https://d.io/api/v1/apps?filter=x")) :=
  C7_amended_filter_branch _ _ _ _ _ (by decide)

theorem groupSub_none (gm : List (Str × Str)) (member : Str)
    (h : ∀ gid extra, matchIdExtra (strOf "/api/v1/groups/") member = some (gid, extra) →
         gm.lookup gid = none) :
    groupSub gm member = none := by
  unfold groupSub
  rcases hm : matchIdExtra (strOf "/api/v1/groups/") member with _ | ⟨gid, extra⟩
  · rfl
  · show (gm.lookup gid).map (fun nm => groupRefOut nm extra) = none
    rw [h gid extra hm]
    rfl

theorem userSub_none (um : List (Str × Str)) (member : Str)
    (h : ∀ uid, matchIdEnd (strOf "/api/v1/users/") member = some uid →
         um.lookup uid = none) :
    userSub um member = none := by
  unfold userSub
  rcases hm : matchIdEnd (strOf "/api/v1/users/") member with _ | uid
  · rfl
  · show (um.lookup uid).map (fun nm => userRefOut nm) = none
    rw [h uid hm]
    rfl

theorem appSub_none (am : Option (List (Str × Str))) (member : Str)
    (h : ∀ aid extra aml, matchIdExtra (strOf "/api/v1/apps/") member = some (aid, extra) →
         am = some aml → aml.lookup aid = none) :
    appSub am member = none := by
  unfold appSub
  rcases hm : matchIdExtra (strOf "/api/v1/apps/") member with _ | ⟨aid, extra⟩
  · rfl
  · rcases ham : am with _ | aml
    · rfl
    · show (if aml ≠ [] then (aml.lookup aid).map (fun nm => appRefOut nm extra) else none) = none
      by_cases hne : aml = []
      · rw [if_neg fun hh => hh hne]
      · rw [if_pos hne, h aid extra aml hm ham]
        rfl

/-- Claim C6: when no substitution applies — the member does not contain
`apps?filter`, is not a bare collection root, and every id pattern either
fails to match or finds an id absent from its table — `substitute_member`
returns the original string unchanged except that embedded double quotes
are escaped.  The embedding is a total function, matching the Python
code's lack of any raising operation. -/
theorem C6_literal_fallback (member : Str) (gm um : List (Str × Str))
    (am : Option (List (Str × Str))) (d : Str)
    (h1 : containsSub (strOf "apps?filter") member = false)
    (h2 : (strOf "/api/v1/groups").isSuffixOf member = false)
    (h3 : (strOf "/api/v1/users").isSuffixOf member = false)
    (h4 : (strOf "/api/v1/apps").isSuffixOf member = false)
    (h5 : ∀ gid extra, matchIdExtra (strOf "/api/v1/groups/") member = some (gid, extra) →
          gm.lookup gid = none)
    (h6 : ∀ uid, matchIdEnd (strOf "/api/v1/users/") member = some uid →
          um.lookup uid = none)
    (h7 : ∀ aid extra aml, matchIdExtra (strOf "/api/v1/apps/") member = some (aid, extra) →
          am = some aml → aml.lookup aid = none) :
    substitute_member member gm um am d = escapeQuotes member := by
  unfold substitute_member
  rw [h1, h2, h3, h4]
  simp only [Bool.false_eq_true, if_false]
  rw [groupSub_none gm member h5, userSub_none um member h6, appSub_none am member h7]
  rfl

/-- Witness for C6: the spec's own example, an unknown group id, falls
back to the (here quote-free, hence unchanged) literal URL. -/
theorem C6_witness :
    substitute_member (strOf "https://org.example.com/api/v1/groups/unknown999")
      [(strOf "abc123", strOf "admin_team")] [] none (strOf "org.example.com")
      = escapeQuotes (strOf "https://org.example.com/api/v1/groups/unknown999") :=
  C6_literal_fallback _ _ _ _ _ (by decide) (by decide) (by decide) (by decide)
    (by
      intro gid extra h
      rw [show matchIdExtra (strOf "/api/v1/groups/")
            (strOf "https://org.example.com/api/v1/groups/unknown999")
            = some (strOf "unknown999", ([] : Str)) from by decide] at h
      simp only [Option.some.injEq, Prod.mk.injEq] at h
      obtain ⟨rfl, rfl⟩ := h
      decide)
    (by
      intro uid h
      rw [show matchIdEnd (strOf "/api/v1/users/")
            (strOf "https://org.example.com/api/v1/groups/unknown999")
            = (none : Option Str) from by decide] at h
      cases h)
    (by
      intro aid extra aml h ham
      cases ham)

theorem isPrefixOf_self_append (l t : Str) : l.isPrefixOf (l ++ t) = true := by
  induction l with
  | nil => simp [List.isPrefixOf]
  | cons c l ih => simp [List.isPrefixOf, ih]

theorem matchIdExtra_cons_neg (marker : Str) (c : Char) (t : Str)
    (h : marker.isPrefixOf (c :: t) = false) :
    matchIdExtra marker (c :: t) = matchIdExtra marker t := by
  conv_lhs => rw [matchIdExtra]
  rw [h]
  simp

theorem matchIdEnd_cons_neg (marker : Str) (c : Char) (t : Str)
    (h : marker.isPrefixOf (c :: t) = false) :
    matchIdEnd marker (c :: t) = matchIdEnd marker t := by
  conv_lhs => rw [matchIdEnd]
  rw [h]
  simp

theorem isPrefixOf_cons_ne (a b : Char) (m t : Str) (h : a ≠ b) :
    (a :: m).isPrefixOf (b :: t) = false := by
  simp [List.isPrefixOf, h]

theorem goodBase_skip_extra (m base : Str) (hb : goodBase base = true) (rest : Str) :
    matchIdExtra ('/' :: 'a' :: m) (base ++ rest) = matchIdExtra ('/' :: 'a' :: m) rest := by
  induction base with
  | nil => rfl
  | cons c b ih =>
    by_cases hc : c = '/'
    · subst hc
      cases b with
      | nil => simp [goodBase] at hb
      | cons d b' =>
        have hd : d ≠ 'a' := by
          intro hda
          subst hda
          simp [goodBase] at hb
        have hb' : goodBase (d :: b') = true := by
          simpa [goodBase, hd] using hb
        have hpre : ('/' :: 'a' :: m).isPrefixOf ('/' :: (d :: b' ++ rest)) = false := by
          simp [List.isPrefixOf, Ne.symm hd]
        rw [List.cons_append, matchIdExtra_cons_neg _ _ _ hpre]
        exact ih hb'
    · have hb' : goodBase b = true := by
        cases b with
        | nil => rfl
        | cons d b' => simpa [goodBase, hc] using hb
      have hpre : ('/' :: 'a' :: m).isPrefixOf (c :: (b ++ rest)) = false :=
        isPrefixOf_cons_ne _ _ _ _ fun h2 => hc h2.symm
      rw [List.cons_append, matchIdExtra_cons_neg _ _ _ hpre]
      exact ih hb'

theorem goodBase_skip_end (m base : Str) (hb : goodBase base = true) (rest : Str) :
    matchIdEnd ('/' :: 'a' :: m) (base ++ rest) = matchIdEnd ('/' :: 'a' :: m) rest := by
  induction base with
  | nil => rfl
  | cons c b ih =>
    by_cases hc : c = '/'
    · subst hc
      cases b with
      | nil => simp [goodBase] at hb
      | cons d b' =>
        have hd : d ≠ 'a' := by
          intro hda
          subst hda
          simp [goodBase] at hb
        have hb' : goodBase (d :: b') = true := by
          simpa [goodBase, hd] using hb
        have hpre : ('/' :: 'a' :: m).isPrefixOf ('/' :: (d :: b' ++ rest)) = false := by
          simp [List.isPrefixOf, Ne.symm hd]
        rw [List.cons_append, matchIdEnd_cons_neg _ _ _ hpre]
        exact ih hb'
    · have hb' : goodBase b = true := by
        cases b with
        | nil => rfl
        | cons d b' => simpa [goodBase, hc] using hb
      have hpre : ('/' :: 'a' :: m).isPrefixOf (c :: (b ++ rest)) = false :=
        isPrefixOf_cons_ne _ _ _ _ fun h2 => hc h2.symm
      rw [List.cons_append, matchIdEnd_cons_neg _ _ _ hpre]
      exact ih hb'

theorem takeWhile_slashfree_append (gid extra : Str)
    (hg : ∀ c ∈ gid, c ≠ '/') (he : extra = [] ∨ ∃ e, extra = '/' :: e) :
    (gid ++ extra).takeWhile (· ≠ '/') = gid ∧
    (gid ++ extra).dropWhile (· ≠ '/') = extra := by
  induction gid with
  | nil =>
    rcases he with rfl | ⟨e, rfl⟩
    · simp
    · simp [List.takeWhile, List.dropWhile]
  | cons c g ih =>
    have hc : c ≠ '/' := hg c (List.mem_cons_self c g)
    have ihg : ∀ x ∈ g, x ≠ '/' := fun x hx => hg x (List.mem_cons_of_mem c hx)
    obtain ⟨h1, h2⟩ := ih ihg
    have hcb : decide (c ≠ '/') = true := by simpa using hc
    constructor
    · rw [List.cons_append, List.takeWhile_cons, hcb, if_pos rfl, h1]
    · rw [List.cons_append, List.dropWhile_cons, hcb, if_pos rfl, h2]

theorem matchIdExtra_at_marker (c0 : Char) (m gid extra : Str)
    (hgid : gid ≠ []) (hg : ∀ c ∈ gid, c ≠ '/')
    (he : extra = [] ∨ ∃ e, extra = '/' :: e) :
    matchIdExtra (c0 :: m) ((c0 :: m) ++ (gid ++ extra)) = some (gid, extra) := by
  obtain ⟨ht, hd⟩ := takeWhile_slashfree_append gid extra hg he
  conv_lhs => rw [List.cons_append, matchIdExtra]
  rw [show (c0 :: (m ++ (gid ++ extra))) = (c0 :: m) ++ (gid ++ extra) from rfl]
  rw [isPrefixOf_self_append]
  simp only [if_true]
  rw [List.drop_left]
  rw [ht, hd]
  simp [hgid]

theorem matchIdEnd_at_marker (c0 : Char) (m uid : Str)
    (huid : uid ≠ []) (hu : ∀ c ∈ uid, c ≠ '/') :
    matchIdEnd (c0 :: m) ((c0 :: m) ++ uid) = some uid := by
  conv_lhs => rw [List.cons_append, matchIdEnd]
  rw [show (c0 :: (m ++ uid)) = (c0 :: m) ++ uid from rfl]
  rw [isPrefixOf_self_append]
  simp only [if_true]
  rw [List.drop_left]
  have hall : (uid.all fun c => decide (c ≠ '/')) = true := by
    rw [List.all_eq_true]
    intro x hx
    simpa using hu x hx
  rw [if_pos ⟨huid, hall⟩]

theorem groupSub_some (gm : List (Str × Str)) (member gid extra nm : Str)
    (hm : matchIdExtra (strOf "/api/v1/groups/") member = some (gid, extra))
    (hlk : gm.lookup gid = some nm) :
    groupSub gm member = some (groupRefOut nm extra) := by
  unfold groupSub
  rw [hm]
  show (gm.lookup gid).map (fun nm => groupRefOut nm extra) = _
  rw [hlk]
  rfl

theorem userSub_some (um : List (Str × Str)) (member uid nm : Str)
    (hm : matchIdEnd (strOf "/api/v1/users/") member = some uid)
    (hlk : um.lookup uid = some nm) :
    userSub um member = some (userRefOut nm) := by
  unfold userSub
  rw [hm]
  show (um.lookup uid).map (fun nm => userRefOut nm) = _
  rw [hlk]
  rfl

theorem appSub_some (aml : List (Str × Str)) (member aid extra nm : Str)
    (hm : matchIdExtra (strOf "/api/v1/apps/") member = some (aid, extra))
    (hne : aml ≠ [])
    (hlk : aml.lookup aid = some nm) :
    appSub (some aml) member = some (appRefOut nm extra) := by
  unfold appSub
  rw [hm]
  show (if aml ≠ [] then (aml.lookup aid).map (fun nm => appRefOut nm extra) else none) = _
  rw [if_pos hne, hlk]
  rfl

theorem groupSub_no_match (gm : List (Str × Str)) (member : Str)
    (h : matchIdExtra (strOf "/api/v1/groups/") member = none) :
    groupSub gm member = none := by
  unfold groupSub
  rw [h]

theorem userSub_no_match (um : List (Str × Str)) (member : Str)
    (h : matchIdEnd (strOf "/api/v1/users/") member = none) :
    userSub um member = none := by
  unfold userSub
  rw [h]

/-- Claim C5, counterexample.  A user URL with a trailing path segment
(`.../api/v1/users/u1/factors`) whose id `u1` is present in the user
table is NOT substituted: the user regex `/api/v1/users/([^\x2f]+)$`
admits no trailing segment, so the literal fallback returns the raw URL,
which still contains the raw id — contradicting the claim's "kind in
\x7bgroups, users, apps\x7d ... optionally with a trailing path
segment". -/
theorem C5_counterexample :
    substitute_member (strOf "https://org.example.com/api/v1/users/u1/factors")
      [] [(strOf "u1", strOf "alice")] none (strOf "org.example.com")
      = strOf "https://org.example.com/api/v1/users/u1/factors" ∧
    containsSub (strOf "u1")
      (substitute_member (strOf "https://org.example.com/api/v1/users/u1/factors")
        [] [(strOf "u1", strOf "alice")] none (strOf "org.example.com")) = true ∧
    substitute_member (strOf "https://org.example.com/api/v1/users/u1/factors")
      [] [(strOf "u1", strOf "alice")] none (strOf "org.example.com")
      ≠ userRefOut (strOf "alice") ++ strOf "/factors" := by decide

/-- Claim C5, amended.  For URLs over a host whose path contains no other
`/a...` segment (shown here for `https://org.example.com`): a group URL
`/api/v1/groups/\x7bid\x7d` with optional trailing segment and known id
resolves to the group data-source reference with the trailing segment
appended verbatim; an app URL does the same through `okta_app` provided
the app table is present and non-empty; a user URL resolves to the user
data-source reference only when the id is the final path segment — user
URLs with trailing segments are NOT substituted (see the counterexample).
Raw ids never appear in the substituted outputs. -/
theorem C5_amended_url_substitution :
    (∀ (gid extra nm : Str) (gm um : List (Str × Str)) (am : Option (List (Str × Str))) (d : Str),
      gid ≠ [] → (∀ c ∈ gid, c ≠ '/') → (extra = [] ∨ ∃ e, extra = '/' :: e) →
      gm.lookup gid = some nm →
      containsSub (strOf "apps?filter")
        (strOf "https://org.example.com" ++ strOf "/api/v1/groups/" ++ gid ++ extra) = false →
      (strOf "/api/v1/groups").isSuffixOf
        (strOf "https://org.example.com" ++ strOf "/api/v1/groups/" ++ gid ++ extra) = false →
      (strOf "/api/v1/users").isSuffixOf
        (strOf "https://org.example.com" ++ strOf "/api/v1/groups/" ++ gid ++ extra) = false →
      (strOf "/api/v1/apps").isSuffixOf
        (strOf "https://org.example.com" ++ strOf "/api/v1/groups/" ++ gid ++ extra) = false →
      substitute_member (strOf "https://org.example.com" ++ strOf "/api/v1/groups/" ++ gid ++ extra)
        gm um am d = groupRefOut nm extra) ∧
    (∀ (aid extra nm : Str) (aml gm um : List (Str × Str)) (d : Str),
      aid ≠ [] → (∀ c ∈ aid, c ≠ '/') → (extra = [] ∨ ∃ e, extra = '/' :: e) →
      aml ≠ [] → aml.lookup aid = some nm →
      containsSub (strOf "apps?filter")
        (strOf "https://org.example.com" ++ strOf "/api/v1/apps/" ++ aid ++ extra) = false →
      (strOf "/api/v1/groups").isSuffixOf
        (strOf "https://org.example.com" ++ strOf "/api/v1/apps/" ++ aid ++ extra) = false →
      (strOf "/api/v1/users").isSuffixOf
        (strOf "https://org.example.com" ++ strOf "/api/v1/apps/" ++ aid ++ extra) = false →
      (strOf "/api/v1/apps").isSuffixOf
        (strOf "https://org.example.com" ++ strOf "/api/v1/apps/" ++ aid ++ extra) = false →
      matchIdExtra (strOf "/api/v1/groups/")
        (strOf "https://org.example.com" ++ strOf "/api/v1/apps/" ++ aid ++ extra) = none →
      matchIdEnd (strOf "/api/v1/users/")
        (strOf "https://org.example.com" ++ strOf "/api/v1/apps/" ++ aid ++ extra) = none →
      substitute_member (strOf "https://org.example.com" ++ strOf "/api/v1/apps/" ++ aid ++ extra)
        gm um (some aml) d = appRefOut nm extra) ∧
    (∀ (uid nm : Str) (gm um : List (Str × Str)) (am : Option (List (Str × Str))) (d : Str),
      uid ≠ [] → (∀ c ∈ uid, c ≠ '/') →
      um.lookup uid = some nm →
      containsSub (strOf "apps?filter")
        (strOf "https://org.example.com" ++ strOf "/api/v1/users/" ++ uid) = false →
      (strOf "/api/v1/groups").isSuffixOf
        (strOf "https://org.example.com" ++ strOf "/api/v1/users/" ++ uid) = false →
      (strOf "/api/v1/users").isSuffixOf
        (strOf "https://org.example.com" ++ strOf "/api/v1/users/" ++ uid) = false →
      (strOf "/api/v1/apps").isSuffixOf
        (strOf "https://org.example.com" ++ strOf "/api/v1/users/" ++ uid) = false →
      matchIdExtra (strOf "/api/v1/groups/")
        (strOf "https://org.example.com" ++ strOf "/api/v1/users/" ++ uid) = none →
      substitute_member (strOf "https://org.example.com" ++ strOf "/api/v1/users/" ++ uid)
        gm um am d = userRefOut nm) := by
  refine ⟨?_, ?_, ?_⟩
  · intro gid extra nm gm um am d hgid hsl hext hlk h1 h2 h3 h4
    have hm : matchIdExtra (strOf "/api/v1/groups/")
        (strOf "https://org.example.com" ++ strOf "/api/v1/groups/" ++ gid ++ extra)
        = some (gid, extra) := by
      rw [List.append_assoc, List.append_assoc]
      rw [show strOf "/api/v1/groups/" = '/' :: 'a' :: strOf "pi/v1/groups/" from by decide]
      rw [goodBase_skip_extra (strOf "pi/v1/groups/") (strOf "https://org.example.com") (by decide)]
      exact matchIdExtra_at_marker '/' ('a' :: strOf "pi/v1/groups/") gid extra hgid hsl hext
    unfold substitute_member
    rw [h1, h2, h3, h4]
    simp only [Bool.false_eq_true, if_false]
    rw [groupSub_some gm _ gid extra nm hm hlk]
    rfl
  · intro aid extra nm aml gm um d haid hsl hext hamlne hlk h1 h2 h3 h4 hgnone hunone
    have hm : matchIdExtra (strOf "/api/v1/apps/")
        (strOf "https://org.example.com" ++ strOf "/api/v1/apps/" ++ aid ++ extra)
        = some (aid, extra) := by
      rw [List.append_assoc, List.append_assoc]
      rw [show strOf "/api/v1/apps/" = '/' :: 'a' :: strOf "pi/v1/apps/" from by decide]
      rw [goodBase_skip_extra (strOf "pi/v1/apps/") (strOf "https://org.example.com") (by decide)]
      exact matchIdExtra_at_marker '/' ('a' :: strOf "pi/v1/apps/") aid extra haid hsl hext
    unfold substitute_member
    rw [h1, h2, h3, h4]
    simp only [Bool.false_eq_true, if_false]
    rw [groupSub_no_match gm _ hgnone, userSub_no_match um _ hunone,
      appSub_some aml _ aid extra nm hm hamlne hlk]
    rfl
  · intro uid nm gm um am d huid hsl hlk h1 h2 h3 h4 hgnone
    have hm : matchIdEnd (strOf "/api/v1/users/")
        (strOf "https://org.example.com" ++ strOf "/api/v1/users/" ++ uid)
        = some uid := by
      rw [List.append_assoc]
      rw [show strOf "/api/v1/users/" = '/' :: 'a' :: strOf "pi/v1/users/" from by decide]
      rw [goodBase_skip_end (strOf "pi/v1/users/") (strOf "https://org.example.com") (by decide)]
      exact matchIdEnd_at_marker '/' ('a' :: strOf "pi/v1/users/") uid huid hsl
    unfold substitute_member
    rw [h1, h2, h3, h4]
    simp only [Bool.false_eq_true, if_false]
    rw [groupSub_no_match gm _ hgnone, userSub_some um _ uid nm hm hlk]
    rfl

/-- Witness for C5: concrete group, app and user URLs resolved through
the three parts of the amended theorem. -/
theorem C5_witness :
    substitute_member (strOf "https://org.example.com" ++ strOf "/api/v1/groups/"
        ++ strOf "abc123" ++ ([] : Str))
      [(strOf "abc123", strOf "admin_team")] [] none (strOf "org.example.com")
      = groupRefOut (strOf "admin_team") ([] : Str) ∧
    substitute_member (strOf "https://org.example.com" ++ strOf "/api/v1/apps/"
        ++ strOf "app42" ++ strOf "/cred")
      [] [] (some [(strOf "app42", strOf "myapp")]) (strOf "org.example.com")
      = appRefOut (strOf "myapp") (strOf "/cred") ∧
    substitute_member (strOf "https://org.example.com" ++ strOf "/api/v1/users/" ++ strOf "u77")
      [] [(strOf "u77", strOf "bob")] none (strOf "org.example.com")
      = userRefOut (strOf "bob") := by
  refine ⟨?_, ?_, ?_⟩
  · exact C5_amended_url_substitution.1 (strOf "abc123") [] (strOf "admin_team")
      [(strOf "abc123", strOf "admin_team")] [] none (strOf "org.example.com")
      (by decide) (by decide) (Or.inl rfl) (by decide)
      (by decide) (by decide) (by decide) (by decide)
  · exact C5_amended_url_substitution.2.1 (strOf "app42") (strOf "/cred") (strOf "myapp")
      [(strOf "app42", strOf "myapp")] [] [] (strOf "org.example.com")
      (by decide) (by decide) (Or.inr ⟨strOf "cred", by decide⟩) (by decide) (by decide)
      (by decide) (by decide) (by decide) (by decide) (by decide) (by decide)
  · exact C5_amended_url_substitution.2.2 (strOf "u77") (strOf "bob")
      [] [(strOf "u77", strOf "bob")] none (strOf "org.example.com")
      (by decide) (by decide) (by decide)
      (by decide) (by decide) (by decide) (by decide) (by decide)

example :
    get_api_data (fun _ => (⟨429, ⟨some 5, none⟩, none⟩ : ApiResponse Unit)) (fun _ => 3)
      (strOf "u") 1 0
      = ⟨none, ⟨some 5, none⟩, [strOf "u", strOf "u"], [2, 2], [strOf "u"]⟩ := by decide

theorem get_api_data_eq_200 (resp : Nat → ApiResponse α) (now : Nat → Int) (url : Str)
    (retry k : Nat) (h : (resp k).status = 200) :
    get_api_data resp now url retry k = ⟨(resp k).json, (resp k).headers, [url], [], []⟩ := by
  cases retry with
  | zero =>
    conv_lhs => rw [get_api_data]
    rw [if_pos h]
  | succ n =>
    conv_lhs => rw [get_api_data]
    rw [if_pos h]

theorem get_api_data_eq_429_succ (resp : Nat → ApiResponse α) (now : Nat → Int) (url : Str)
    (n k : Nat) (h : (resp k).status = 429) :
    get_api_data resp now url (n + 1) k =
      ⟨(get_api_data resp now url n (k + 1)).result,
       (get_api_data resp now url n (k + 1)).headers,
       url :: (get_api_data resp now url n (k + 1)).requests,
       rateLimitSleep (resp k).headers (now k) :: (get_api_data resp now url n (k + 1)).sleeps,
       (get_api_data resp now url n (k + 1)).warnings⟩ := by
  conv_lhs => rw [get_api_data]
  rw [if_neg (by rw [h]; decide), if_pos h]

theorem get_api_data_eq_429_zero (resp : Nat → ApiResponse α) (now : Nat → Int) (url : Str)
    (k : Nat) (h : (resp k).status = 429) :
    get_api_data resp now url 0 k =
      ⟨none, (resp k).headers, [url], [rateLimitSleep (resp k).headers (now k)], [url]⟩ := by
  conv_lhs => rw [get_api_data]
  rw [if_neg (by rw [h]; decide), if_pos h]

theorem get_api_data_eq_err (resp : Nat → ApiResponse α) (now : Nat → Int) (url : Str)
    (retry k : Nat) (h200 : ¬ (resp k).status = 200) (h429 : ¬ (resp k).status = 429) :
    get_api_data resp now url retry k = ⟨none, (resp k).headers, [url], [], [url]⟩ := by
  cases retry with
  | zero =>
    conv_lhs => rw [get_api_data]
    rw [if_neg h200, if_neg h429]
  | succ n =>
    conv_lhs => rw [get_api_data]
    rw [if_neg h200, if_neg h429]

theorem get_api_data_requests_all (resp : Nat → ApiResponse α) (now : Nat → Int) (url : Str) :
    ∀ (n k : Nat), ∀ u ∈ (get_api_data resp now url n k).requests, u = url := by
  intro n
  induction n with
  | zero =>
    intro k u hu
    by_cases h2 : (resp k).status = 200
    · rw [get_api_data_eq_200 resp now url 0 k h2] at hu
      simpa using hu
    · by_cases h4 : (resp k).status = 429
      · rw [get_api_data_eq_429_zero resp now url k h4] at hu
        simpa using hu
      · rw [get_api_data_eq_err resp now url 0 k h2 h4] at hu
        simpa using hu
  | succ n ih =>
    intro k u hu
    by_cases h2 : (resp k).status = 200
    · rw [get_api_data_eq_200 resp now url (n + 1) k h2] at hu
      simpa using hu
    · by_cases h4 : (resp k).status = 429
      · rw [get_api_data_eq_429_succ resp now url n k h4] at hu
        simp only [List.mem_cons] at hu
        rcases hu with rfl | hmem
        · rfl
        · exact ih (k + 1) u hmem
      · rw [get_api_data_eq_err resp now url (n + 1) k h2 h4] at hu
        simpa using hu

theorem get_api_data_exhausted (resp : Nat → ApiResponse α) (now : Nat → Int) (url : Str) :
    ∀ (n k : Nat), (∀ i, k ≤ i → i ≤ k + n → (resp i).status = 429) →
    get_api_data resp now url n k =
      ⟨none, (resp (k + n)).headers, List.replicate (n + 1) url,
       (List.range (n + 1)).map (fun j => rateLimitSleep (resp (k + j)).headers (now (k + j))),
       [url]⟩ := by
  intro n
  induction n with
  | zero =>
    intro k h
    have h429 : (resp k).status = 429 := h k le_rfl (by omega)
    rw [get_api_data_eq_429_zero resp now url k h429]
    simp [List.range_succ]
  | succ n ih =>
    intro k h
    have h429 : (resp k).status = 429 := h k le_rfl (by omega)
    have hrest := ih (k + 1) (by intro i h1 h2; exact h i (by omega) (by omega))
    rw [get_api_data_eq_429_succ resp now url n k h429, hrest]
    have e1 : k + 1 + n = k + (n + 1) := by omega
    have e2 : ∀ j : Nat, k + 1 + j = k + (j + 1) := by intro j; omega
    have hsl : (List.range (n + 1 + 1)).map
          (fun j => rateLimitSleep (resp (k + j)).headers (now (k + j)))
        = rateLimitSleep (resp k).headers (now k) ::
          (List.range (n + 1)).map
            (fun j => rateLimitSleep (resp (k + 1 + j)).headers (now (k + 1 + j))) := by
      conv_lhs => rw [List.range_succ_eq_map, List.map_cons, List.map_map]
      refine congrArg₂ (· :: ·) rfl ?_
      refine List.map_congr_left fun j hj => ?_
      simp only [Function.comp_apply]
      rw [e2 j]
    have hhd : (resp (k + (n + 1))).headers = (resp (k + 1 + n)).headers := by rw [e1]
    have hrq : List.replicate (n + 1 + 1) url = url :: List.replicate (n + 1) url := by
      rw [List.replicate_succ]
    rw [hhd, hrq, hsl]

/-- Claim C9: with `retry_count = n` and n+1 or more consecutive 429
responses, `get_api_data` terminates (it is a total function of the
budget) after exactly n+1 GETs of the same URL, sleeps before every retry
decision — n+1 sleeps in all, including one after the final,
budget-exhausted attempt — and returns `(None, headers of the last
response)`, printing the exhaustion warning. -/
theorem C9_retry_exhaustion (resp : Nat → ApiResponse α) (now : Nat → Int) (url : Str)
    (n : Nat) (h : ∀ i, i ≤ n → (resp i).status = 429) :
    get_api_data resp now url n 0 =
      ⟨none, (resp n).headers, List.replicate (n + 1) url,
       (List.range (n + 1)).map (fun j => rateLimitSleep (resp j).headers (now j)), [url]⟩ := by
  have := get_api_data_exhausted resp now url n 0 (by intro i h1 h2; exact h i (by omega))
  simpa using this

/-- Witness for C9: three consecutive 429s against a budget of 2 retries
give three requests, three sleeps, and the third response's headers. -/
theorem C9_witness :
    get_api_data (fun i => (⟨429, ⟨some (5 + (i : Int)), none⟩, none⟩ : ApiResponse Unit))
      (fun _ => 3) (strOf "u") 2 0
      = ⟨none, ⟨some 7, none⟩, List.replicate 3 (strOf "u"), [2, 3, 4], [strOf "u"]⟩ :=
  (C9_retry_exhaustion (fun i => (⟨429, ⟨some (5 + (i : Int)), none⟩, none⟩ : ApiResponse Unit))
    (fun _ => 3) (strOf "u") 2 (fun i _ => rfl)).trans (by decide)

/-- Claim C2, counterexample.  When the reset timestamp equals the
current time the code sleeps 0 seconds (it replaces the difference by 1
only when negative), while the claim's `max(1, reset - now)` mandates a
1-second sleep. -/
theorem C2_counterexample :
    (get_api_data (fun _ => (⟨429, ⟨some 5, none⟩, none⟩ : ApiResponse Unit)) (fun _ => 5)
      (strOf "u") 0 0).sleeps = [0] ∧
    max (1 : Int) (5 - 5) = 1 ∧ ((0 : Int) ≠ 1) := by decide

/-- Claim C2, amended.  On a 429 the computed sleep is `reset - now` when
the header is present and the difference is nonnegative (zero sleeps
zero: only a negative difference is replaced by 1 — not `max(1, ...)`),
and a fixed 60 seconds when the header is absent; the sleep happens
before the budget check, every issued request targets the same URL, and
an exhausted budget returns `(None, headers)` with a warning instead of
raising. -/
theorem C2_amended_rate_limit (resp : Nat → ApiResponse α) (now : Nat → Int) (url : Str)
    (n k : Nat) (h : (resp k).status = 429) :
    (get_api_data resp now url n k).sleeps.head?
      = some (rateLimitSleep (resp k).headers (now k)) ∧
    (∀ reset, (resp k).headers.reset = some reset →
      rateLimitSleep (resp k).headers (now k)
        = if reset - now k < 0 then 1 else reset - now k) ∧
    ((resp k).headers.reset = none → rateLimitSleep (resp k).headers (now k) = 60) ∧
    (∀ u ∈ (get_api_data resp now url n k).requests, u = url) ∧
    (n = 0 → get_api_data resp now url n k =
      ⟨none, (resp k).headers, [url], [rateLimitSleep (resp k).headers (now k)], [url]⟩) := by
  refine ⟨?_, ?_, ?_, get_api_data_requests_all resp now url n k, ?_⟩
  · cases n with
    | zero =>
      rw [get_api_data_eq_429_zero resp now url k h]
      rfl
    | succ m =>
      rw [get_api_data_eq_429_succ resp now url m k h]
      rfl
  · intro reset hr
    unfold rateLimitSleep
    rw [hr]
  · intro hr
    unfold rateLimitSleep
    rw [hr]
  · intro hn
    subst hn
    exact get_api_data_eq_429_zero resp now url k h

/-- Witness for C2: a 429 with reset 9 at time 4 sleeps 5 seconds, a
present-header sleep is the guarded difference, and a zero budget returns
the none-result immediately after the sleep. -/
theorem C2_witness :
    ((get_api_data (fun _ => (⟨429, ⟨some 9, none⟩, none⟩ : ApiResponse Unit)) (fun _ => 4)
        (strOf "u") 0 0).sleeps.head? = some 5 ∧
      (∀ u ∈ (get_api_data (fun _ => (⟨429, ⟨some 9, none⟩, none⟩ : ApiResponse Unit)) (fun _ => 4)
        (strOf "u") 0 0).requests, u = strOf "u") ∧
      get_api_data (fun _ => (⟨429, ⟨some 9, none⟩, none⟩ : ApiResponse Unit)) (fun _ => 4)
        (strOf "u") 0 0
        = ⟨none, ⟨some 9, none⟩, [strOf "u"], [5], [strOf "u"]⟩) := by
  obtain ⟨h1, _, _, h4, h5⟩ := C2_amended_rate_limit
    (fun _ => (⟨429, ⟨some 9, none⟩, none⟩ : ApiResponse Unit)) (fun _ => 4) (strOf "u") 0 0 rfl
  exact ⟨by simpa using h1, h4, by simpa using h5 rfl⟩

example : findNextLinkA (strOf "<https://x/p2>; rel=\"next\"") = some (strOf "https://x/p2") := by
  decide

example :
    findNextLinkA (strOf "<https://x/p1>; rel=\"prev\", <https://x/p2>; rel=\"next\"")
      = some (strOf "https://x/p2") := by decide

example : parseLinkB (strOf "<https://x/p2>; rel=\"next\"") = some (strOf "https://x/p2") := by
  decide

example :
    parseLinkB (strOf "<https://x/p1>; rel=\"prev\", <https://x/p2>; rel=\"next\"")
      = some (strOf "https://x/p2") := by decide

example : parseLinkB (strOf "<https://x/p1>; rel=\"self\"") = none := by decide

example :
    fetch_all_groups
      (chainListServer (strOf "https://" ++ strOf "x.io" ++ strOf "/api/v1/groups")
        [[⟨1, none⟩], [⟨2, none⟩], [⟨3, none⟩]] 3)
      (strOf "x.io") 3
      = [⟨1, none⟩, ⟨2, none⟩, ⟨3, none⟩] := by decide

example :
    fetch_okta_group_rules
      (chainListServer (strOf "https://x.io" ++ strOf "/api/v1/groups/rules")
        [[⟨1, none⟩], [⟨2, none⟩], [⟨3, none⟩]] 1)
      (strOf "https://x.io") 3
      = [] := by decide

example :
    fetch_roles
      (chainRolesServer (strOf "https://" ++ strOf "x.io" ++ strOf "/api/v1/iam/roles")
        [[⟨1, none⟩], [⟨2, none⟩], [⟨3, none⟩]] 1)
      (fun _ => 0) (strOf "x.io") 3
      = [⟨1, none⟩] := by decide

example :
    fetch_okta_groups
      (chainListServer (strOf "https://x.io" ++ strOf "/api/v1/groups")
        [[⟨1, some (strOf "OKTA_GROUP")⟩, ⟨2, some (strOf "APP_GROUP")⟩], [⟨3, none⟩]] 2)
      (strOf "https://x.io") 2
      = [⟨1, some (strOf "OKTA_GROUP")⟩] := by decide

theorem takeWhile_append_all (p : Char → Bool) (u v : Str) (h : ∀ c ∈ u, p c = true) :
    (u ++ v).takeWhile p = u ++ v.takeWhile p ∧ (u ++ v).dropWhile p = v.dropWhile p := by
  induction u with
  | nil => simp
  | cons c t ih =>
    have hc : p c = true := h c (List.mem_cons_self c t)
    obtain ⟨h1, h2⟩ := ih fun x hx => h x (List.mem_cons_of_mem c hx)
    constructor
    · rw [List.cons_append, List.takeWhile_cons, hc, if_pos rfl, h1, List.cons_append]
    · rw [List.cons_append, List.dropWhile_cons, hc, if_pos rfl, h2]

theorem findNextLinkA_mkLinkHeader (u : Str) (h1 : u ≠ []) (h2 : ∀ c ∈ u, c ≠ '>') :
    findNextLinkA (mkLinkHeader u) = some u := by
  have hall : ∀ c ∈ u, (fun c => decide (c ≠ '>')) c = true := by
    intro c hc
    simpa using h2 c hc
  obtain ⟨htw0, hdw0⟩ := takeWhile_append_all (fun c => decide (c ≠ '>')) u
    (strOf ">; rel=\"next\"") hall
  have htw : (u ++ strOf ">; rel=\"next\"").takeWhile (fun c => decide (c ≠ '>')) = u := by
    rw [htw0, show (strOf ">; rel=\"next\"").takeWhile (fun c => decide (c ≠ '>')) = [] from by
      decide, List.append_nil]
  have hdw : (u ++ strOf ">; rel=\"next\"").dropWhile (fun c => decide (c ≠ '>'))
      = strOf ">; rel=\"next\"" := by
    rw [hdw0]
    decide
  show findNextLinkA ('<' :: (u ++ strOf ">; rel=\"next\"")) = some u
  conv_lhs => rw [findNextLinkA]
  rw [if_pos rfl,
    if_pos ⟨by rw [htw]; exact h1, by rw [hdw]; decide, by rw [hdw]; decide, by rw [hdw]; decide⟩,
    htw]

theorem findIdx_none_shift (p : Char → Bool) :
    ∀ (u : Str), (∀ c ∈ u, p c = false) → ∀ (v : Str) (i : Nat),
      List.findIdx? p (u ++ v) i = List.findIdx? p v (i + u.length) := by
  intro u
  induction u with
  | nil => intro h v i; simp
  | cons c t ih =>
    intro h v i
    rw [List.cons_append, List.findIdx?_cons, if_neg (by rw [h c (List.mem_cons_self c t)]; decide),
      ih (fun x hx => h x (List.mem_cons_of_mem c hx)) v (i + 1)]
    congr 1
    simp
    omega

theorem pyFindChar_mkLinkHeader_lt (u : Str) : pyFindChar (mkLinkHeader u) '<' = 0 := by
  unfold pyFindChar mkLinkHeader
  rw [List.cons_append, List.findIdx?_cons, if_pos (by decide)]
  rfl

theorem pyFindChar_mkLinkHeader_gt (u : Str) (h : ∀ c ∈ u, c ≠ '>') :
    pyFindChar (mkLinkHeader u) '>' = 1 + (u.length : Int) := by
  unfold pyFindChar mkLinkHeader
  rw [List.cons_append, List.findIdx?_cons, if_neg (by decide),
    findIdx_none_shift _ u (by intro c hc; simpa using h c hc) _ 1,
    show strOf ">; rel=\"next\"" = '>' :: strOf "; rel=\"next\"" from by decide,
    List.findIdx?_cons, if_pos (by decide)]
  push_cast
  rfl

theorem pySlice_nat (s : Str) (i j : Nat) (hi : i ≤ s.length) (hj : j ≤ s.length) :
    pySlice s (i : Int) (j : Int) = (s.take j).drop i := by
  simp only [pySlice]
  rw [if_neg (by omega), if_neg (by omega)]
  have h1 : min (i : Int) ((s.length : Nat) : Int) = (i : Int) :=
    min_eq_left (by exact_mod_cast hi)
  have h2 : min (j : Int) ((s.length : Nat) : Int) = (j : Int) :=
    min_eq_left (by exact_mod_cast hj)
  rw [h1, h2, Int.toNat_natCast, Int.toNat_natCast]

theorem extractAngle_mkLinkHeader (u : Str) (h : ∀ c ∈ u, c ≠ '>') :
    extractAngle (mkLinkHeader u) = u := by
  unfold extractAngle
  rw [pyFindChar_mkLinkHeader_lt, pyFindChar_mkLinkHeader_gt u h]
  have hlen : (mkLinkHeader u).length = u.length + 14 := by
    unfold mkLinkHeader
    rw [List.length_append, List.length_cons,
      show (strOf ">; rel=\"next\"").length = 13 from by decide]
  rw [show (0 : Int) + 1 = ((1 : Nat) : Int) from by decide,
    show (1 : Int) + (u.length : Int) = ((1 + u.length : Nat) : Int) from by push_cast; ring,
    pySlice_nat _ 1 (1 + u.length) (by omega) (by omega)]
  show ((('<' :: (u ++ strOf ">; rel=\"next\"")).take (1 + u.length)).drop 1) = u
  rw [show 1 + u.length = u.length + 1 from by omega, List.take_succ_cons]
  simp [List.take_left]

theorem splitOnSepAux_no (sep : Str) (c0 : Char) (hsep : sep.head? = some c0) :
    ∀ (fuel : Nat) (s : Str), (∀ c ∈ s, c ≠ c0) → splitOnSepAux sep fuel s = [s] := by
  intro fuel
  induction fuel with
  | zero =>
    intro s hns
    cases s with
    | nil => rfl
    | cons c t => rfl
  | succ fuel ih =>
    intro s hns
    cases s with
    | nil => rfl
    | cons c t =>
      have hpre : ¬ (sep ≠ [] ∧ sep.isPrefixOf (c :: t) = true) := by
        rintro ⟨hne, hp⟩
        cases hsp : sep with
        | nil => exact hne hsp
        | cons s0 sp =>
          rw [hsp] at hsep hp
          simp only [List.head?_cons, Option.some.injEq] at hsep
          subst hsep
          rw [isPrefixOf_cons_ne s0 c sp t
            (fun he => hns c (List.mem_cons_self c t) he.symm)] at hp
          cases hp
      conv_lhs => rw [splitOnSepAux]
      rw [if_neg hpre, ih t fun x hx => hns x (List.mem_cons_of_mem c hx)]

theorem splitOnSep_no (sep : Str) (c0 : Char) (hsep : sep.head? = some c0) (s : Str)
    (h : ∀ c ∈ s, c ≠ c0) : splitOnSep sep s = [s] :=
  splitOnSepAux_no sep c0 hsep s.length s h

theorem containsSub_cons_right (sub : Str) (c : Char) (t : Str)
    (h : containsSub sub t = true) : containsSub sub (c :: t) = true := by
  unfold containsSub
  rw [h, Bool.or_true]

theorem containsSub_append_left (sub u v : Str) (h : containsSub sub v = true) :
    containsSub sub (u ++ v) = true := by
  induction u with
  | nil => simpa using h
  | cons c t ih => exact List.cons_append c t v ▸ containsSub_cons_right sub c (t ++ v) ih

theorem parseLinkB_mkLinkHeader (u : Str) (hgt : ∀ c ∈ u, c ≠ '>')
    (hcm : ∀ c ∈ u, c ≠ ',') :
    parseLinkB (mkLinkHeader u) = some u := by
  have hnc : ∀ c ∈ mkLinkHeader u, c ≠ ',' := by
    intro c hc
    unfold mkLinkHeader at hc
    rw [List.cons_append, List.mem_cons] at hc
    rcases hc with rfl | hc
    · decide
    · rw [List.mem_append] at hc
      rcases hc with hc | hc
      · exact hcm c hc
      · intro he
        subst he
        exact absurd hc (by decide)
  unfold parseLinkB
  rw [splitOnSep_no (strOf ", ") ',' rfl _ hnc]
  show (if containsSub (strOf "rel=\"next\"") (mkLinkHeader u) = true
        then some (extractAngle (mkLinkHeader u)) else none) = some u
  rw [if_pos (by
      show containsSub _ (('<' :: u) ++ strOf ">; rel=\"next\"") = true
      rw [List.cons_append]
      exact containsSub_cons_right _ _ _
        (containsSub_append_left _ u _ (by decide))),
    extractAngle_mkLinkHeader u hgt]

theorem urlOf_ne (i : Nat) (s : Str) (hs : s.head? ≠ some 'p') : urlOf i ≠ s := by
  intro h
  apply hs
  rw [← h]
  unfold urlOf
  rw [List.replicate_succ]
  rfl

theorem urlOf_ne_empty (i : Nat) : urlOf i ≠ [] := by
  unfold urlOf
  rw [List.replicate_succ]
  exact List.cons_ne_nil _ _

theorem urlOf_mem (i : Nat) (c : Char) (hc : c ∈ urlOf i) : c = 'p' :=
  List.eq_of_mem_replicate hc

theorem decodeUrl_urlOf (i : Nat) (h : 1 ≤ i) : decodeUrl (urlOf i) = some i := by
  unfold decodeUrl
  rw [show (urlOf i).length = i + 1 from by unfold urlOf; exact List.length_replicate _ _]
  simp only [Nat.add_sub_cancel]
  rw [if_pos ⟨h, trivial⟩]

theorem chainListServer_at_start (start : Str) (pages : List (List Item)) (failAt : Nat) :
    chainListServer start pages failAt start = listPage pages failAt 0 := by
  unfold chainListServer
  rw [if_pos rfl]

theorem chainListServer_at (start : Str) (pages : List (List Item)) (failAt i : Nat)
    (h1 : 1 ≤ i) (hs : start.head? ≠ some 'p') :
    chainListServer start pages failAt (urlOf i) = listPage pages failAt i := by
  unfold chainListServer
  rw [if_neg (urlOf_ne i start hs), decodeUrl_urlOf i h1]

theorem chainRolesServer_at_start (start : Str) (pages : List (List Item)) (failAt : Nat) :
    chainRolesServer start pages failAt start = rolesPage pages failAt 0 := by
  unfold chainRolesServer
  rw [if_pos rfl]

theorem chainRolesServer_at (start : Str) (pages : List (List Item)) (failAt i : Nat)
    (h1 : 1 ≤ i) (hs : start.head? ≠ some 'p') :
    chainRolesServer start pages failAt (urlOf i) = rolesPage pages failAt i := by
  unfold chainRolesServer
  rw [if_neg (urlOf_ne i start hs), decodeUrl_urlOf i h1]

theorem chainServer_eval_list (start : Str) (pages : List (List Item)) (failAt i : Nat)
    (hs : start.head? ≠ some 'p') :
    chainListServer start pages failAt (chainUrl start i) = listPage pages failAt i := by
  by_cases hi : i = 0
  · subst hi
    rw [show chainUrl start 0 = start from rfl]
    exact chainListServer_at_start start pages failAt
  · rw [show chainUrl start i = urlOf i from by unfold chainUrl; rw [if_neg hi]]
    exact chainListServer_at start pages failAt i (by omega) hs

theorem chainServer_eval_roles (start : Str) (pages : List (List Item)) (failAt i : Nat)
    (hs : start.head? ≠ some 'p') :
    chainRolesServer start pages failAt (chainUrl start i) = rolesPage pages failAt i := by
  by_cases hi : i = 0
  · subst hi
    rw [show chainUrl start 0 = start from rfl]
    exact chainRolesServer_at_start start pages failAt
  · rw [show chainUrl start i = urlOf i from by unfold chainUrl; rw [if_neg hi]]
    exact chainRolesServer_at start pages failAt i (by omega) hs

theorem take_drop_join_nil (pages : List (List Item)) (failAt i : Nat)
    (h : failAt ≤ i ∨ pages.length ≤ i) :
    ((pages.take failAt).drop i).flatten = [] := by
  rw [List.drop_eq_nil_of_le (by rw [List.length_take]; omega)]
  rfl

theorem take_drop_join_cons (pages : List (List Item)) (failAt i : Nat) (hi : i < failAt)
    (hlen : i < pages.length) :
    ((pages.take failAt).drop i).flatten
      = pages.getD i [] ++ ((pages.take failAt).drop (i + 1)).flatten := by
  have hlt : i < (pages.take failAt).length := by rw [List.length_take]; omega
  rw [List.drop_eq_getElem_cons hlt, List.flatten_cons, List.getElem_take,
    List.getD_eq_getElem pages [] hlen]

theorem fagGo_step (server : Str → ListResponse) (fuel : Nat) (url : Str) (acc : List Item)
    (h : (server url).status = 200) :
    fetch_all_groups_go server (fuel + 1) (some url) acc
      = fetch_all_groups_go server fuel ((server url).link.bind findNextLinkA)
          (acc ++ (server url).items) := by
  conv_lhs => rw [fetch_all_groups_go]
  rw [if_pos h]

theorem fagGo_stop (server : Str → ListResponse) (fuel : Nat) (url : Str) (acc : List Item)
    (h : ¬ (server url).status = 200) :
    fetch_all_groups_go server (fuel + 1) (some url) acc = acc := by
  conv_lhs => rw [fetch_all_groups_go]
  rw [if_neg h]

theorem fagGo_none (server : Str → ListResponse) (fuel : Nat) (acc : List Item) :
    fetch_all_groups_go server fuel none acc = acc := by
  cases fuel <;> rfl

theorem fagGo_chain (start : Str) (hs : start.head? ≠ some 'p') (pages : List (List Item))
    (failAt : Nat) :
    ∀ (fuel i : Nat) (acc : List Item), i ≤ failAt → pages.length - i ≤ fuel →
      fetch_all_groups_go (chainListServer start pages failAt) fuel
          (some (chainUrl start i)) acc
        = acc ++ ((pages.take failAt).drop i).flatten := by
  intro fuel
  induction fuel with
  | zero =>
    intro i acc hif hfu
    rw [show fetch_all_groups_go (chainListServer start pages failAt) 0
          (some (chainUrl start i)) acc = acc from rfl,
      take_drop_join_nil pages failAt i (Or.inr (by omega)), List.append_nil]
  | succ fuel ih =>
    intro i acc hif hfu
    by_cases hlen : i < pages.length
    · by_cases hfail : i = failAt
      · have hpage : listPage pages failAt i = ⟨500, none, []⟩ := by
          unfold listPage
          rw [if_pos hlen, if_pos hfail]
        rw [fagGo_stop _ fuel _ acc
            (by rw [chainServer_eval_list start pages failAt i hs, hpage]; decide),
          take_drop_join_nil pages failAt i (Or.inl (by omega)), List.append_nil]
      · have hpage : listPage pages failAt i
            = ⟨200, if i + 1 < pages.length then some (mkLinkHeader (urlOf (i + 1))) else none,
               pages.getD i []⟩ := by
          unfold listPage
          rw [if_pos hlen, if_neg hfail]
        have hst : (chainListServer start pages failAt (chainUrl start i)).status = 200 := by
          rw [chainServer_eval_list start pages failAt i hs, hpage]
        have hlk : (chainListServer start pages failAt (chainUrl start i)).link
            = if i + 1 < pages.length then some (mkLinkHeader (urlOf (i + 1))) else none := by
          rw [chainServer_eval_list start pages failAt i hs, hpage]
        have hit : (chainListServer start pages failAt (chainUrl start i)).items
            = pages.getD i [] := by
          rw [chainServer_eval_list start pages failAt i hs, hpage]
        rw [fagGo_step _ fuel _ acc hst, hlk, hit]
        by_cases hnext : i + 1 < pages.length
        · rw [if_pos hnext,
            show (some (mkLinkHeader (urlOf (i + 1)))).bind findNextLinkA
              = findNextLinkA (mkLinkHeader (urlOf (i + 1))) from rfl,
            findNextLinkA_mkLinkHeader (urlOf (i + 1)) (urlOf_ne_empty _)
              (fun c hc => by rw [urlOf_mem _ c hc]; decide),
            show some (urlOf (i + 1)) = some (chainUrl start (i + 1)) from by
              rw [show chainUrl start (i + 1) = urlOf (i + 1) from by
                unfold chainUrl
                rw [if_neg (by omega)]],
            ih (i + 1) (acc ++ pages.getD i []) (by omega) (by omega),
            take_drop_join_cons pages failAt i (by omega) hlen, List.append_assoc]
        · rw [if_neg hnext,
            take_drop_join_cons pages failAt i (by omega) hlen,
            take_drop_join_nil pages failAt (i + 1) (Or.inr (by omega)), List.append_nil,
            show (none : Option Str).bind findNextLinkA = none from rfl,
            fagGo_none _ fuel _]
    · have h404 : (chainListServer start pages failAt (chainUrl start i)).status = 404 := by
        rw [chainServer_eval_list start pages failAt i hs]
        unfold listPage
        rw [if_neg hlen]
      rw [fagGo_stop _ fuel _ acc (by rw [h404]; decide),
        take_drop_join_nil pages failAt i (Or.inr (by omega)), List.append_nil]

theorem drop_join_cons (pages : List (List Item)) (i : Nat) (hlen : i < pages.length) :
    (pages.drop i).flatten = pages.getD i [] ++ (pages.drop (i + 1)).flatten := by
  have := take_drop_join_cons pages pages.length i hlen hlen
  rwa [List.take_length] at this

theorem fogrGo_none (server : Str → ListResponse) (fuel : Nat) (acc : List Item) :
    fetch_okta_group_rules_go server fuel none acc = acc := by
  cases fuel <;> rfl

theorem fogrGo_step (server : Str → ListResponse) (fuel : Nat) (url : Str) (acc : List Item)
    (h : (server url).status = 200) :
    fetch_okta_group_rules_go server (fuel + 1) (some url) acc
      = fetch_okta_group_rules_go server fuel ((server url).link.bind parseLinkB)
          (acc ++ (server url).items) := by
  conv_lhs => rw [fetch_okta_group_rules_go]
  rw [if_pos h]

theorem fogrGo_stop (server : Str → ListResponse) (fuel : Nat) (url : Str) (acc : List Item)
    (h : ¬ (server url).status = 200) :
    fetch_okta_group_rules_go server (fuel + 1) (some url) acc = [] := by
  conv_lhs => rw [fetch_okta_group_rules_go]
  rw [if_neg h]

theorem fogrGo_chain (start : Str) (hs : start.head? ≠ some 'p') (pages : List (List Item))
    (failAt : Nat) :
    ∀ (fuel i : Nat) (acc : List Item), i ≤ failAt → i < pages.length →
      pages.length - i ≤ fuel →
      fetch_okta_group_rules_go (chainListServer start pages failAt) fuel
          (some (chainUrl start i)) acc
        = if failAt < pages.length then [] else acc ++ (pages.drop i).flatten := by
  intro fuel
  induction fuel with
  | zero =>
    intro i acc hif hlen hfu
    omega
  | succ fuel ih =>
    intro i acc hif hlen hfu
    by_cases hfail : i = failAt
    · have hpage : listPage pages failAt i = ⟨500, none, []⟩ := by
        unfold listPage
        rw [if_pos hlen, if_pos hfail]
      rw [fogrGo_stop _ fuel _ acc
          (by rw [chainServer_eval_list start pages failAt i hs, hpage]; decide),
        if_pos (by omega)]
    · have hpage : listPage pages failAt i
          = ⟨200, if i + 1 < pages.length then some (mkLinkHeader (urlOf (i + 1))) else none,
             pages.getD i []⟩ := by
        unfold listPage
        rw [if_pos hlen, if_neg hfail]
      have hst : (chainListServer start pages failAt (chainUrl start i)).status = 200 := by
        rw [chainServer_eval_list start pages failAt i hs, hpage]
      have hlk : (chainListServer start pages failAt (chainUrl start i)).link
          = if i + 1 < pages.length then some (mkLinkHeader (urlOf (i + 1))) else none := by
        rw [chainServer_eval_list start pages failAt i hs, hpage]
      have hit : (chainListServer start pages failAt (chainUrl start i)).items
          = pages.getD i [] := by
        rw [chainServer_eval_list start pages failAt i hs, hpage]
      rw [fogrGo_step _ fuel _ acc hst, hlk, hit]
      by_cases hnext : i + 1 < pages.length
      · rw [if_pos hnext,
          show (some (mkLinkHeader (urlOf (i + 1)))).bind parseLinkB
            = parseLinkB (mkLinkHeader (urlOf (i + 1))) from rfl,
          parseLinkB_mkLinkHeader (urlOf (i + 1))
            (fun c hc => by rw [urlOf_mem _ c hc]; decide)
            (fun c hc => by rw [urlOf_mem _ c hc]; decide),
          show some (urlOf (i + 1)) = some (chainUrl start (i + 1)) from by
            rw [show chainUrl start (i + 1) = urlOf (i + 1) from by
              unfold chainUrl
              rw [if_neg (by omega)]],
          ih (i + 1) (acc ++ pages.getD i []) (by omega) (by omega) (by omega)]
        by_cases hfl : failAt < pages.length
        · rw [if_pos hfl, if_pos hfl]
        · rw [if_neg hfl, if_neg hfl, drop_join_cons pages i hlen, List.append_assoc]
      · rw [if_neg hnext,
          show (none : Option Str).bind parseLinkB = none from rfl,
          fogrGo_none _ fuel _,
          if_neg (by omega),
          drop_join_cons pages i hlen,
          show (pages.drop (i + 1)).flatten = [] from by
            rw [List.drop_eq_nil_of_le (by omega)]
            rfl,
          List.append_nil]

theorem fogGo_none (server : Str → ListResponse) (fuel : Nat) (acc : List Item) :
    fetch_okta_groups_go server fuel none acc = acc := by
  cases fuel <;> rfl

theorem fogGo_step (server : Str → ListResponse) (fuel : Nat) (url : Str) (acc : List Item)
    (h : (server url).status = 200) :
    fetch_okta_groups_go server (fuel + 1) (some url) acc
      = fetch_okta_groups_go server fuel ((server url).link.bind parseLinkB)
          (acc ++ (server url).items.filter isOktaGroup) := by
  conv_lhs => rw [fetch_okta_groups_go]
  rw [if_pos h]

theorem fogGo_chain (start : Str) (hs : start.head? ≠ some 'p') (pages : List (List Item)) :
    ∀ (fuel i : Nat) (acc : List Item), i < pages.length → pages.length - i ≤ fuel →
      fetch_okta_groups_go (chainListServer start pages pages.length) fuel
          (some (chainUrl start i)) acc
        = acc ++ (pages.drop i).flatten.filter isOktaGroup := by
  intro fuel
  induction fuel with
  | zero =>
    intro i acc hlen hfu
    omega
  | succ fuel ih =>
    intro i acc hlen hfu
    have hpage : listPage pages pages.length i
        = ⟨200, if i + 1 < pages.length then some (mkLinkHeader (urlOf (i + 1))) else none,
           pages.getD i []⟩ := by
      unfold listPage
      rw [if_pos hlen, if_neg (by omega)]
    have hst : (chainListServer start pages pages.length (chainUrl start i)).status = 200 := by
      rw [chainServer_eval_list start pages pages.length i hs, hpage]
    have hlk : (chainListServer start pages pages.length (chainUrl start i)).link
        = if i + 1 < pages.length then some (mkLinkHeader (urlOf (i + 1))) else none := by
      rw [chainServer_eval_list start pages pages.length i hs, hpage]
    have hit : (chainListServer start pages pages.length (chainUrl start i)).items
        = pages.getD i [] := by
      rw [chainServer_eval_list start pages pages.length i hs, hpage]
    rw [fogGo_step _ fuel _ acc hst, hlk, hit]
    by_cases hnext : i + 1 < pages.length
    · rw [if_pos hnext,
        show (some (mkLinkHeader (urlOf (i + 1)))).bind parseLinkB
          = parseLinkB (mkLinkHeader (urlOf (i + 1))) from rfl,
        parseLinkB_mkLinkHeader (urlOf (i + 1))
          (fun c hc => by rw [urlOf_mem _ c hc]; decide)
          (fun c hc => by rw [urlOf_mem _ c hc]; decide),
        show some (urlOf (i + 1)) = some (chainUrl start (i + 1)) from by
          rw [show chainUrl start (i + 1) = urlOf (i + 1) from by
            unfold chainUrl
            rw [if_neg (by omega)]],
        ih (i + 1) (acc ++ (pages.getD i []).filter isOktaGroup) (by omega) (by omega),
        drop_join_cons pages i hlen, List.filter_append, List.append_assoc]
    · rw [if_neg hnext,
        show (none : Option Str).bind parseLinkB = none from rfl,
        fogGo_none _ fuel _,
        drop_join_cons pages i hlen,
        show (pages.drop (i + 1)).flatten = [] from by
          rw [List.drop_eq_nil_of_le (by omega)]
          rfl,
        List.append_nil]

theorem frGo_none (server : Str → ApiResponse RolesBody) (now : Nat → Int) (fuel : Nat)
    (acc : List Item) :
    fetch_roles_go server now fuel none acc = acc := by
  cases fuel <;> rfl

theorem frGo_step (server : Str → ApiResponse RolesBody) (now : Nat → Int) (fuel : Nat)
    (url : Str) (acc : List Item) (body : RolesBody)
    (h : (get_api_data (fun _ => server url) now url 3 0).result = some body) :
    fetch_roles_go server now (fuel + 1) (some url) acc
      = fetch_roles_go server now fuel body.next (acc ++ body.roles) := by
  conv_lhs => rw [fetch_roles_go]
  rw [h]

theorem frGo_stop (server : Str → ApiResponse RolesBody) (now : Nat → Int) (fuel : Nat)
    (url : Str) (acc : List Item)
    (h : (get_api_data (fun _ => server url) now url 3 0).result = none) :
    fetch_roles_go server now (fuel + 1) (some url) acc = acc := by
  conv_lhs => rw [fetch_roles_go]
  rw [h]

theorem frGo_chain (start : Str) (hs : start.head? ≠ some 'p') (pages : List (List Item))
    (failAt : Nat) (now : Nat → Int) :
    ∀ (fuel i : Nat) (acc : List Item), i ≤ failAt → pages.length - i ≤ fuel →
      fetch_roles_go (chainRolesServer start pages failAt) now fuel
          (some (chainUrl start i)) acc
        = acc ++ ((pages.take failAt).drop i).flatten := by
  intro fuel
  induction fuel with
  | zero =>
    intro i acc hif hfu
    rw [show fetch_roles_go (chainRolesServer start pages failAt) now 0
          (some (chainUrl start i)) acc = acc from rfl,
      take_drop_join_nil pages failAt i (Or.inr (by omega)), List.append_nil]
  | succ fuel ih =>
    intro i acc hif hfu
    by_cases hlen : i < pages.length
    · by_cases hfail : i = failAt
      · have hpage : rolesPage pages failAt i = ⟨500, ⟨none, none⟩, none⟩ := by
          unfold rolesPage
          rw [if_pos hlen, if_pos hfail]
        have hres : (get_api_data
              (fun _ => chainRolesServer start pages failAt (chainUrl start i)) now
              (chainUrl start i) 3 0).result = none := by
          rw [get_api_data_eq_err _ now _ 3 0
            (by
              show ¬ (chainRolesServer start pages failAt (chainUrl start i)).status = 200
              rw [chainServer_eval_roles start pages failAt i hs, hpage]
              decide)
            (by
              show ¬ (chainRolesServer start pages failAt (chainUrl start i)).status = 429
              rw [chainServer_eval_roles start pages failAt i hs, hpage]
              decide)]
        rw [frGo_stop _ now fuel _ acc hres,
          take_drop_join_nil pages failAt i (Or.inl (by omega)), List.append_nil]
      · have hpage : rolesPage pages failAt i
            = ⟨200, ⟨none, none⟩,
               some ⟨pages.getD i [],
                 if i + 1 < pages.length then some (urlOf (i + 1)) else none⟩⟩ := by
          unfold rolesPage
          rw [if_pos hlen, if_neg hfail]
        have hres : (get_api_data
              (fun _ => chainRolesServer start pages failAt (chainUrl start i)) now
              (chainUrl start i) 3 0).result
            = some ⟨pages.getD i [],
                if i + 1 < pages.length then some (urlOf (i + 1)) else none⟩ := by
          rw [get_api_data_eq_200 _ now _ 3 0
            (by
              show (chainRolesServer start pages failAt (chainUrl start i)).status = 200
              rw [chainServer_eval_roles start pages failAt i hs, hpage])]
          show (chainRolesServer start pages failAt (chainUrl start i)).json = _
          rw [chainServer_eval_roles start pages failAt i hs, hpage]
        rw [frGo_step _ now fuel _ acc _ hres]
        by_cases hnext : i + 1 < pages.length
        · rw [show (⟨pages.getD i [],
                if i + 1 < pages.length then some (urlOf (i + 1)) else none⟩ : RolesBody).next
              = if i + 1 < pages.length then some (urlOf (i + 1)) else none from rfl,
            if_pos hnext,
            show some (urlOf (i + 1)) = some (chainUrl start (i + 1)) from by
              rw [show chainUrl start (i + 1) = urlOf (i + 1) from by
                unfold chainUrl
                rw [if_neg (by omega)]],
            ih (i + 1) _ (by omega) (by omega),
            take_drop_join_cons pages failAt i (by omega) hlen, List.append_assoc]
        · rw [show (⟨pages.getD i [],
                if i + 1 < pages.length then some (urlOf (i + 1)) else none⟩ : RolesBody).next
              = if i + 1 < pages.length then some (urlOf (i + 1)) else none from rfl,
            if_neg hnext, frGo_none _ now fuel _,
            take_drop_join_cons pages failAt i (by omega) hlen,
            take_drop_join_nil pages failAt (i + 1) (Or.inr (by omega)), List.append_nil]
    · have hres : (get_api_data
            (fun _ => chainRolesServer start pages failAt (chainUrl start i)) now
            (chainUrl start i) 3 0).result = none := by
        have hpage : rolesPage pages failAt i = ⟨404, ⟨none, none⟩, none⟩ := by
          unfold rolesPage
          rw [if_neg hlen]
        rw [get_api_data_eq_err _ now _ 3 0
          (by
            show ¬ (chainRolesServer start pages failAt (chainUrl start i)).status = 200
            rw [chainServer_eval_roles start pages failAt i hs, hpage]
            decide)
          (by
            show ¬ (chainRolesServer start pages failAt (chainUrl start i)).status = 429
            rw [chainServer_eval_roles start pages failAt i hs, hpage]
            decide)]
      rw [frGo_stop _ now fuel _ acc hres,
        take_drop_join_nil pages failAt i (Or.inr (by omega)), List.append_nil]

theorem fogGo_stop (server : Str → ListResponse) (fuel : Nat) (url : Str) (acc : List Item)
    (h : ¬ (server url).status = 200) :
    fetch_okta_groups_go server (fuel + 1) (some url) acc = [] := by
  conv_lhs => rw [fetch_okta_groups_go]
  rw [if_neg h]

/-- Claim C1: against a synthetic multi-page chain server, both
pagination strategies return exactly the concatenation of all pages'
items in server order — `fetch_roles` follows the body's
`_links.next.href`, `fetch_all_groups` the `Link` header — for any loop
bound at least the page count (no item is duplicated or dropped: the
result is equal, as a list, to the flattened pages). -/
theorem C1_pagination_complete (pages : List (List Item)) (k : Nat) :
    fetch_roles
        (chainRolesServer (strOf "https://" ++ strOf "x.io" ++ strOf "/api/v1/iam/roles")
          pages pages.length)
        (fun _ => 0) (strOf "x.io") (pages.length + k)
      = pages.flatten ∧
    fetch_all_groups
        (chainListServer (strOf "https://" ++ strOf "x.io" ++ strOf "/api/v1/groups")
          pages pages.length)
        (strOf "x.io") (pages.length + k)
      = pages.flatten := by
  constructor
  · unfold fetch_roles
    have h := frGo_chain (strOf "https://" ++ strOf "x.io" ++ strOf "/api/v1/iam/roles")
      (by decide) pages pages.length (fun _ => 0) (pages.length + k) 0 [] (by omega) (by omega)
    rw [show chainUrl (strOf "https://" ++ strOf "x.io" ++ strOf "/api/v1/iam/roles") 0
        = strOf "https://" ++ strOf "x.io" ++ strOf "/api/v1/iam/roles" from rfl,
      List.take_length, List.drop_zero, List.nil_append] at h
    exact h
  · unfold fetch_all_groups
    have h := fagGo_chain (strOf "https://" ++ strOf "x.io" ++ strOf "/api/v1/groups")
      (by decide) pages pages.length (pages.length + k) 0 [] (by omega) (by omega)
    rw [show chainUrl (strOf "https://" ++ strOf "x.io" ++ strOf "/api/v1/groups") 0
        = strOf "https://" ++ strOf "x.io" ++ strOf "/api/v1/groups" from rfl,
      List.take_length, List.drop_zero, List.nil_append] at h
    exact h

/-- Claim C3, counterexample.  With page 2 of 3 returning a 500,
`fetch_roles` returns page 1's item — but `fetch_okta_group_rules`, one
of the two fetch loops the claim covers, returns the empty list,
discarding the page already accumulated, so the claim's "returns the
items accumulated from the earlier pages" is false for it. -/
theorem C3_counterexample :
    fetch_roles
        (chainRolesServer (strOf "https://" ++ strOf "x.io" ++ strOf "/api/v1/iam/roles")
          [[⟨1, none⟩], [⟨2, none⟩], [⟨3, none⟩]] 1)
        (fun _ => 0) (strOf "x.io") 3
      = [⟨1, none⟩] ∧
    fetch_okta_group_rules
        (chainListServer (strOf "https://x.io" ++ strOf "/api/v1/groups/rules")
          [[⟨1, none⟩], [⟨2, none⟩], [⟨3, none⟩]] 1)
        (strOf "https://x.io") 3
      = [] ∧
    ([] : List Item) ≠ [⟨1, none⟩] := by decide

/-- Claim C3, amended.  On a non-200, non-429 page the admin-roles
loops (`fetch_roles`, `fetch_all_groups`) abort and return the items of
the pages before the failure; the group-rules generator's loops instead
`return []`, discarding the accumulated items (its `fetch_okta_groups`
behaves the same way).  No loop raises. -/
theorem C3_amended_partial_results (pages : List (List Item)) (failAt k : Nat)
    (h : failAt < pages.length) :
    fetch_roles
        (chainRolesServer (strOf "https://" ++ strOf "x.io" ++ strOf "/api/v1/iam/roles")
          pages failAt)
        (fun _ => 0) (strOf "x.io") (pages.length + k)
      = (pages.take failAt).flatten ∧
    fetch_all_groups
        (chainListServer (strOf "https://" ++ strOf "x.io" ++ strOf "/api/v1/groups")
          pages failAt)
        (strOf "x.io") (pages.length + k)
      = (pages.take failAt).flatten ∧
    fetch_okta_group_rules
        (chainListServer (strOf "https://x.io" ++ strOf "/api/v1/groups/rules")
          pages failAt)
        (strOf "https://x.io") (pages.length + k)
      = [] := by
  refine ⟨?_, ?_, ?_⟩
  · unfold fetch_roles
    have h2 := frGo_chain (strOf "https://" ++ strOf "x.io" ++ strOf "/api/v1/iam/roles")
      (by decide) pages failAt (fun _ => 0) (pages.length + k) 0 [] (by omega) (by omega)
    rw [show chainUrl (strOf "https://" ++ strOf "x.io" ++ strOf "/api/v1/iam/roles") 0
        = strOf "https://" ++ strOf "x.io" ++ strOf "/api/v1/iam/roles" from rfl,
      List.drop_zero, List.nil_append] at h2
    exact h2
  · unfold fetch_all_groups
    have h2 := fagGo_chain (strOf "https://" ++ strOf "x.io" ++ strOf "/api/v1/groups")
      (by decide) pages failAt (pages.length + k) 0 [] (by omega) (by omega)
    rw [show chainUrl (strOf "https://" ++ strOf "x.io" ++ strOf "/api/v1/groups") 0
        = strOf "https://" ++ strOf "x.io" ++ strOf "/api/v1/groups" from rfl,
      List.drop_zero, List.nil_append] at h2
    exact h2
  · unfold fetch_okta_group_rules
    have h2 := fogrGo_chain (strOf "https://x.io" ++ strOf "/api/v1/groups/rules")
      (by decide) pages failAt (pages.length + k) 0 [] (by omega) (by omega) (by omega)
    rw [show chainUrl (strOf "https://x.io" ++ strOf "/api/v1/groups/rules") 0
        = strOf "https://x.io" ++ strOf "/api/v1/groups/rules" from rfl,
      if_pos h] at h2
    exact h2

/-- Witness for C3: a concrete 3-page chain failing on page 2. -/
theorem C3_witness :
    fetch_roles
        (chainRolesServer (strOf "https://" ++ strOf "x.io" ++ strOf "/api/v1/iam/roles")
          [[⟨1, none⟩], [⟨2, none⟩], [⟨3, none⟩]] 1)
        (fun _ => 0) (strOf "x.io") 3
      = [⟨1, none⟩] ∧
    fetch_all_groups
        (chainListServer (strOf "https://" ++ strOf "x.io" ++ strOf "/api/v1/groups")
          [[⟨1, none⟩], [⟨2, none⟩], [⟨3, none⟩]] 1)
        (strOf "x.io") 3
      = [⟨1, none⟩] ∧
    fetch_okta_group_rules
        (chainListServer (strOf "https://x.io" ++ strOf "/api/v1/groups/rules")
          [[⟨1, none⟩], [⟨2, none⟩], [⟨3, none⟩]] 1)
        (strOf "https://x.io") 3
      = [] := by
  obtain ⟨a, b, c⟩ := C3_amended_partial_results
    [[⟨1, none⟩], [⟨2, none⟩], [⟨3, none⟩]] 1 0 (by decide)
  exact ⟨a.trans (by decide), b.trans (by decide), c⟩

/-- Claim C10: `fetch_okta_groups` returns exactly the fetched items
whose `type` is `OKTA_GROUP`, silently excluding every other item, so
the result can be strictly smaller than what the server emitted (its
length is bounded by the total emitted). -/
theorem C10_okta_group_filter (pages : List (List Item)) (k : Nat) :
    fetch_okta_groups
        (chainListServer (strOf "https://x.io" ++ strOf "/api/v1/groups") pages pages.length)
        (strOf "https://x.io") (pages.length + k)
      = pages.flatten.filter isOktaGroup ∧
    (∀ g ∈ fetch_okta_groups
        (chainListServer (strOf "https://x.io" ++ strOf "/api/v1/groups") pages pages.length)
        (strOf "https://x.io") (pages.length + k), isOktaGroup g = true) ∧
    (fetch_okta_groups
        (chainListServer (strOf "https://x.io" ++ strOf "/api/v1/groups") pages pages.length)
        (strOf "https://x.io") (pages.length + k)).length
      ≤ pages.flatten.length := by
  have hmain : fetch_okta_groups
      (chainListServer (strOf "https://x.io" ++ strOf "/api/v1/groups") pages pages.length)
      (strOf "https://x.io") (pages.length + k)
      = pages.flatten.filter isOktaGroup := by
    by_cases hp : pages = []
    · subst hp
      unfold fetch_okta_groups
      cases k with
      | zero => rfl
      | succ m =>
        rw [show (List.length ([] : List (List Item))) + (m + 1) = m + 1 from by simp]
        rw [fogGo_stop _ m _ []
          (by
            rw [chainListServer_at_start (strOf "https://x.io" ++ strOf "/api/v1/groups") []
              (List.length ([] : List (List Item)))]
            unfold listPage
            rw [if_neg (by decide)]
            decide)]
        rfl
    · unfold fetch_okta_groups
      have h2 := fogGo_chain (strOf "https://x.io" ++ strOf "/api/v1/groups")
        (by decide) pages (pages.length + k) 0 []
        (by cases pages with | nil => exact absurd rfl hp | cons a l => simp) (by omega)
      rw [show chainUrl (strOf "https://x.io" ++ strOf "/api/v1/groups") 0
          = strOf "https://x.io" ++ strOf "/api/v1/groups" from rfl,
        List.drop_zero, List.nil_append] at h2
      exact h2
  refine ⟨hmain, ?_, ?_⟩
  · rw [hmain]
    intro g hg
    exact List.of_mem_filter hg
  · rw [hmain]
    exact List.length_filter_le _ _
